import Mathlib

/-!
Mass-Spring simulation (`src/main.cpp`): embedding and verified properties.

The engine of `src/main.cpp` is embedded over an arbitrary linearly ordered
field `F` standing for the idealised (exact) arithmetic of the `float`
computations.  The square root is a parameter `sqrt : F → F`; theorems state
what they need of it at the points where the code calls it.  Every division
whose divisor is not a non-zero constant is checked: an operation returns
`none` when the code would divide by zero (producing `inf` or `NaN`).
Conversions between `float` and `int` are exact on integers and truncate
towards zero otherwise (`FloorRing F`).
Springs refer to their endpoints by index into the masses of their mesh.
-/

namespace MassSpring

/-! ## Vectors (`sf::Vector2f`) -/

/-- Two-dimensional vector, the `sf::Vector2f` of the source. -/
@[ext] structure Vec2 (F : Type) where
  x : F
  y : F
deriving DecidableEq, Repr

section Defs

variable {F : Type} [LinearOrderedField F]

instance : Zero (Vec2 F) := ⟨⟨0, 0⟩⟩
instance : Add (Vec2 F) := ⟨fun a b => ⟨a.x + b.x, a.y + b.y⟩⟩
instance : Sub (Vec2 F) := ⟨fun a b => ⟨a.x - b.x, a.y - b.y⟩⟩
instance : Neg (Vec2 F) := ⟨fun a => ⟨-a.x, -a.y⟩⟩
instance : HMul (Vec2 F) F (Vec2 F) := ⟨fun a s => ⟨a.x * s, a.y * s⟩⟩
instance : HMul F (Vec2 F) (Vec2 F) := ⟨fun s a => ⟨a.x * s, a.y * s⟩⟩
instance : HDiv (Vec2 F) F (Vec2 F) := ⟨fun a s => ⟨a.x / s, a.y / s⟩⟩

/-- The source's `WIDTH`. -/
def WIDTH : Nat := 1920

/-- The source's `HEIGHT`. -/
def HEIGHT : Nat := 1010

/-- The source's `MAX_FRAMES`. -/
def MAX_FRAMES : Nat := 240

/-- The source's global time step `dt = 1.0f / float(MAX_FRAMES)`. -/
def dt : F := 1 / (MAX_FRAMES : F)

/-- The source's `len`: Euclidean length, `sqrt(v.x*v.x + v.y*v.y)`. -/
def len (sqrt : F → F) (v : Vec2 F) : F := sqrt (v.x * v.x + v.y * v.y)

/-- The source's `lenSqr`: squared length. -/
def lenSqr (v : Vec2 F) : F := v.x * v.x + v.y * v.y

/-- The source's `dist`: length of `v2 - v1`. -/
def dist (sqrt : F → F) (v1 v2 : Vec2 F) : F :=
  let dV := v2 - v1
  len sqrt dV

/-- The source's `normalize`: the zero vector when the length is zero,
otherwise `v / l`. -/
def normalize (sqrt : F → F) (v : Vec2 F) : Vec2 F :=
  let l := len sqrt v
  if l = 0 then ⟨0, 0⟩ else v / l

/-- The source's `dot`. -/
def dot (v1 v2 : Vec2 F) : F := v1.x * v2.x + v1.y * v2.y

/-! ## Particles (`struct Mass`) -/

/-- The source's `Mass`: a point mass with Verlet position history. -/
@[ext] structure Mass (F : Type) where
  mass : F
  r : F
  pos : Vec2 F
  lastPos : Vec2 F
  acc : Vec2 F
deriving DecidableEq, Repr

/-- The constructor `Mass(_startPos, _r, _initVel, _mass)`; `dt` is the
global time step of the source. -/
def Mass.new (dt : F) (startPos : Vec2 F) (r : F) (initVel : Vec2 F) (mass : F) : Mass F :=
  { mass := mass, r := r, pos := startPos, lastPos := startPos - initVel * dt, acc := ⟨0, 0⟩ }

/-- The method `Mass::changeVel`. -/
def Mass.changeVel (m : Mass F) (velMatrix : Vec2 F) : Mass F :=
  { m with lastPos :=
      ⟨m.pos.x + (m.lastPos.x - m.pos.x) * velMatrix.x,
       m.pos.y + (m.lastPos.y - m.pos.y) * velMatrix.y⟩ }

/-- The method `Mass::getVelV`. -/
def Mass.getVelV (m : Mass F) : Vec2 F := m.pos - m.lastPos

/-- The method `Mass::move`, for the global time step `dt`. -/
def Mass.move (dt : F) (m : Mass F) : Mass F :=
  let tempPos := m.pos
  { m with pos := m.pos + (m.pos - m.lastPos + m.acc * dt * dt), lastPos := tempPos }

/-! ## Springs, meshes, boundary -/

/-- The source's `Spring`; the references `m1`, `m2` are indices into the
masses of the mesh that owns the spring. -/
structure Spring (F : Type) where
  m1 : Nat
  m2 : Nat
  restLen : F
  springConstant : F
  dampingConstant : F
deriving DecidableEq, Repr

/-- In-place `m.acc += a` on the mass with index `i`. -/
def addAcc (i : Nat) (a : Vec2 F) (ms : List (Mass F)) : List (Mass F) :=
  List.modify (fun m => { m with acc := m.acc + a }) i ms

/-- In-place `m.acc -= a` on the mass with index `i`. -/
def subAcc (i : Nat) (a : Vec2 F) (ms : List (Mass F)) : List (Mass F) :=
  List.modify (fun m => { m with acc := m.acc - a }) i ms

/-- In-place `m.pos += a` on the mass with index `i`. -/
def addPos (i : Nat) (a : Vec2 F) (ms : List (Mass F)) : List (Mass F) :=
  List.modify (fun m => { m with pos := m.pos + a }) i ms

/-- In-place `m.pos -= a` on the mass with index `i`. -/
def subPos (i : Nat) (a : Vec2 F) (ms : List (Mass F)) : List (Mass F) :=
  List.modify (fun m => { m with pos := m.pos - a }) i ms

/-- The vector `force` of `Spring::calculateMassAcc` (lines 117-120), for a
non-zero rest length. -/
def Spring.force (sqrt : F → F) (s : Spring F) (m1 m2 : Mass F) : Vec2 F :=
  let seperation := s.restLen - dist sqrt m1.pos m2.pos
  let seperation := seperation / s.restLen
  let springDir := normalize sqrt (m1.pos - m2.pos)
  s.springConstant * springDir * seperation

/-- The vector `dampingForce` of `Spring::calculateMassAcc` (lines 125-129). -/
def Spring.dampingForce (sqrt : F → F) (s : Spring F) (m1 m2 : Mass F) : Vec2 F :=
  let springDir := normalize sqrt (m1.pos - m2.pos)
  let vel1 := m1.pos - m1.lastPos
  let vel2 := m2.pos - m2.lastPos
  let deltaVel := vel2 - vel1
  let alignment := dot deltaVel springDir
  springDir * s.dampingConstant * alignment

/-- Lines 117-122 of `Spring::calculateMassAcc`: the elastic term.  `none`
when the code divides by zero (`restLen`, `m1.mass` or `m2.mass` is zero) or
an endpoint does not exist. -/
def Spring.elastic (sqrt : F → F) (s : Spring F) (ms : List (Mass F)) : Option (List (Mass F)) :=
  match ms[s.m1]?, ms[s.m2]? with
  | some m1, some m2 =>
    if s.restLen = 0 then none
    else
      let force := s.force sqrt m1 m2
      if m1.mass = 0 then none
      else
        let ms := addAcc s.m1 (force / m1.mass) ms
        if m2.mass = 0 then none
        else some (subAcc s.m2 (force / m2.mass) ms)
  | _, _ => none

/-- Lines 125-131 of `Spring::calculateMassAcc`: the damping term. -/
def Spring.damping (sqrt : F → F) (s : Spring F) (ms : List (Mass F)) : Option (List (Mass F)) :=
  match ms[s.m1]?, ms[s.m2]? with
  | some m1, some m2 =>
    let dampingForce := s.dampingForce sqrt m1 m2
    if m1.mass = 0 then none
    else
      let ms := addAcc s.m1 (dampingForce / m1.mass) ms
      if m2.mass = 0 then none
      else some (subAcc s.m2 (dampingForce / m2.mass) ms)
  | _, _ => none

/-- The method `Spring::calculateMassAcc`, acting on the masses of the mesh. -/
def Spring.calculateMassAcc (sqrt : F → F) (s : Spring F) (ms : List (Mass F)) :
    Option (List (Mass F)) :=
  (s.elastic sqrt ms).bind (s.damping sqrt)

/-- The source's `SpringMassMesh`. -/
structure SpringMassMesh (F : Type) where
  masses : List (Mass F)
  springs : List (Spring F)
deriving DecidableEq, Repr

/-- The source's `Bound`. -/
structure Bound (F : Type) where
  pos : Vec2 F
  size : Vec2 F
deriving DecidableEq, Repr

/-- The point `p` lies in the closed rectangle of the boundary. -/
def Bound.contains (bound : Bound F) (p : Vec2 F) : Prop :=
  bound.pos.x ≤ p.x ∧ p.x ≤ bound.pos.x + bound.size.x ∧
  bound.pos.y ≤ p.y ∧ p.y ≤ bound.pos.y + bound.size.y

instance (bound : Bound F) (p : Vec2 F) : Decidable (bound.contains p) := by
  unfold Bound.contains
  infer_instance

/-! ## The world -/

/-- The source's `World` (without the render window). -/
structure World (F : Type) where
  meshes : List (SpringMassMesh F)
  activeBound : Bound F
  bounceEnergy : F
deriving DecidableEq, Repr

/-- Apply `f` to every mass of every mesh: the loop
`for (SpringMassMesh& s : meshes) for (Mass& m : s.masses)`. -/
def World.forMasses (f : Mass F → Mass F) (w : World F) : World F :=
  { w with meshes := w.meshes.map (fun s => { s with masses := s.masses.map f }) }

/-- All masses of the world in mesh order (the vector `masses` that
`checkExternalCollision` collects). -/
def World.allMasses (w : World F) : List (Mass F) :=
  (w.meshes.map (fun s => s.masses)).flatten

/-- The springs of one mesh evaluated in order. -/
def SpringMassMesh.calculateSpringAcc (sqrt : F → F) (m : SpringMassMesh F) :
    Option (SpringMassMesh F) :=
  (m.springs.foldlM (fun ms (s : Spring F) => s.calculateMassAcc sqrt ms) m.masses).map
    (fun ms => { m with masses := ms })

/-- The method `World::calculateSpringAcc`. -/
def World.calculateSpringAcc (sqrt : F → F) (w : World F) : Option (World F) :=
  (w.meshes.mapM (SpringMassMesh.calculateSpringAcc sqrt)).map
    (fun ms => { w with meshes := ms })

/-- The method `World::applyExternalForce`. -/
def World.applyExternalForce (force : Vec2 F) (w : World F) : World F :=
  w.forMasses (fun m => { m with acc := m.acc + force })

/-- The method `World::moveMasses`. -/
def World.moveMasses (dt : F) (w : World F) : World F :=
  w.forMasses (Mass.move dt)

/-- The body of the loop of `World::checkBounds` for one mass. -/
def Mass.checkBounds (activeBound : Bound F) (bounceEnergy : F) (m : Mass F) : Mass F :=
  let m :=
    if m.pos.x < activeBound.pos.x then
      ({ m with pos := ⟨activeBound.pos.x, m.pos.y⟩ } : Mass F).changeVel ⟨-bounceEnergy, 1⟩
    else if m.pos.y < activeBound.pos.y then
      ({ m with pos := ⟨m.pos.x, activeBound.pos.y⟩ } : Mass F).changeVel ⟨1, -bounceEnergy⟩
    else m
  if m.pos.x > activeBound.pos.x + activeBound.size.x then
    ({ m with pos := ⟨activeBound.pos.x + activeBound.size.x, m.pos.y⟩ } : Mass F).changeVel
      ⟨-bounceEnergy, 1⟩
  else if m.pos.y > activeBound.pos.y + activeBound.size.y then
    ({ m with pos := ⟨m.pos.x, activeBound.pos.y + activeBound.size.y⟩ } : Mass F).changeVel
      ⟨1, -bounceEnergy⟩
  else m

/-- The method `World::checkBounds`. -/
def World.checkBounds (w : World F) : World F :=
  w.forMasses (Mass.checkBounds w.activeBound w.bounceEnergy)

/-- The method `World::resetMassAcc`. -/
def World.resetMassAcc (w : World F) : World F :=
  w.forMasses (fun m => { m with acc := ⟨0, 0⟩ })

/-- The method `World::doMouseInteraction`. -/
def World.doMouseInteraction (sqrt : F → F) (mousePos moveV : Vec2 F)
    (mouseInteractionDistance : F) (w : World F) : World F :=
  w.forMasses (fun m =>
    let distance := dist sqrt m.pos mousePos
    if distance < mouseInteractionDistance then { m with acc := m.acc + moveV } else m)

/-- The index pairs `(x, i)` that the two nested loops of
`World::checkExternalCollision` visit for `n` masses, in the order visited:
`x` from `0` below `n`, and `i` from `x + 1` below `n`. -/
def collisionPairs (n : Nat) : List (Nat × Nat) :=
  (List.range n).flatMap (fun x => (List.range' (x + 1) (n - (x + 1))).map (fun i => (x, i)))

/-- The conversion of a `float` to `int`: truncation towards zero (for values
in the range of `int`). -/
def toInt [FloorRing F] (v : F) : Int := if 0 ≤ v then ⌊v⌋ else ⌈v⌉

/-- The call `abs(v)` on a `float` `v` as the source compiles it. The name is
unqualified and the source has no `using namespace std`: its headers
(`<cmath>`, `<cstdlib>`) declare at global scope only `int abs(int)`, so `v`
is converted to `int` and the `int` result converted back to `float`. -/
def intAbs [FloorRing F] (v : F) : F := ((|toInt v| : Int) : F)

/-- The body of the inner loop of `World::checkExternalCollision` (lines
330-350) for the pair `p = (x, i)`; the `abs` of line 342 is `intAbs`.
`none` when the code divides by zero in `deltaPos / (distance + combR)`. -/
def collidePair [FloorRing F] (dt : F) (sqrt : F → F) (ms : List (Mass F)) (p : Nat × Nat) :
    Option (List (Mass F)) :=
  let x := p.1
  let i := p.2
  if i ≠ x then
    match ms[i]?, ms[x]? with
    | some mi, some mx =>
      let deltaPos := mi.pos - mx.pos
      let distanceSqr := lenSqr deltaPos
      let combR := mi.r + mx.r
      if distanceSqr - combR * combR > 0 then some ms
      else
        let distance := sqrt distanceSqr
        let distance := distance - combR
        if distance ≤ 0 then
          if distance + combR = 0 then none
          else
            let dPosNorm := deltaPos / (distance + combR)
            let distance := intAbs distance
            let ms := addPos i (dPosNorm * distance / (2 : F)) ms
            let ms := subPos x (dPosNorm * distance / (2 : F)) ms
            let ms := addAcc i (dPosNorm * distance * dt * (100000 : F)) ms
            let ms := subAcc x (dPosNorm * distance * dt * (100000 : F)) ms
            some ms
        else some ms
    | _, _ => none
  else some ms

/-- Write the flat list of masses back into the meshes, each mesh taking as
many masses as it holds (the loops of `checkExternalCollision` act on
pointers into the meshes). -/
def setMasses : List (SpringMassMesh F) → List (Mass F) → List (SpringMassMesh F)
  | [], _ => []
  | s :: rest, ms =>
    { s with masses := ms.take s.masses.length } :: setMasses rest (ms.drop s.masses.length)

/-- The method `World::checkExternalCollision`. -/
def World.checkExternalCollision [FloorRing F] (dt : F) (sqrt : F → F) (w : World F) : Option (World F) :=
  let masses := w.allMasses
  ((collisionPairs masses.length).foldlM (collidePair dt sqrt) masses).map
    (fun ms => { w with meshes := setMasses w.meshes ms })

/-! ## The update sequence of `main` -/

/-- What one pass of the main loop reads from mouse and keyboard. -/
structure Input (F : Type) where
  leftPressed : Bool
  mousePos : Vec2 F
  lastMousePos : Vec2 F
  gToggle : Bool
  rightDown : Bool
deriving DecidableEq, Repr

/-- One round of the loop `for (int i = 0; i < 3; ++i)` of `main`:
`checkExternalCollision` then `checkBounds`. -/
def World.relax [FloorRing F] (dt : F) (sqrt : F → F) (w : World F) : Option (World F) :=
  (w.checkExternalCollision dt sqrt).map World.checkBounds

/-- The given number of rounds of `World.relax`. -/
def World.relaxN [FloorRing F] (dt : F) (sqrt : F → F) : Nat → World F → Option (World F)
  | 0, w => some w
  | n + 1, w => (w.relax dt sqrt).bind (World.relaxN dt sqrt n)

/-- The updates of one pass of the main loop (lines 424-456 of `main`). -/
def World.update [FloorRing F] (dt : F) (sqrt : F → F) (inp : Input F) (w : World F) : Option (World F) :=
  let w := w.resetMassAcc
  (w.calculateSpringAcc sqrt).bind fun w =>
  (if inp.leftPressed then
      (if dt = 0 then none
       else some (w.doMouseInteraction sqrt inp.mousePos
              ((inp.mousePos - inp.lastMousePos) / dt * (5 : F)) 100))
    else some w).bind fun w =>
  let w := if inp.gToggle then w.applyExternalForce ⟨0, 500⟩ else w
  let w := w.moveMasses dt
  let w :=
    if inp.rightDown then
      { w with meshes := w.meshes ++ [⟨[Mass.new dt inp.mousePos 25 ⟨0, 0⟩ 1], []⟩] }
    else w
  (w.relaxN dt sqrt 3).map fun w =>
  if inp.rightDown then { w with meshes := w.meshes.dropLast } else w

/-- The main loop run on a sequence of inputs, one pass for each. -/
def World.run [FloorRing F] (dt : F) (sqrt : F → F) : List (Input F) → World F → Option (World F)
  | [], w => some w
  | inp :: rest, w => (w.update dt sqrt inp).bind (World.run dt sqrt rest)

/-- The input of a pass in which no key or button is pressed and the
external force is switched off. -/
def Input.idle : Input F :=
  { leftPressed := false, mousePos := ⟨0, 0⟩, lastMousePos := ⟨0, 0⟩, gToggle := false,
    rightDown := false }

/-- The input of a pass with only the external force `(0, 500)` switched on. -/
def Input.gravity : Input F :=
  { leftPressed := false, mousePos := ⟨0, 0⟩, lastMousePos := ⟨0, 0⟩, gToggle := true,
    rightDown := false }

/-- The source's `normalize` with its division `v / l` checked: `none` when
the code divides by zero. -/
def normalizeChecked (sqrt : F → F) (v : Vec2 F) : Option (Vec2 F) :=
  let l := len sqrt v
  if l = 0 then some ⟨0, 0⟩ else (if l = 0 then none else some (v / l))

/-- The body of the loop of `World::doMouseInteraction` for one mass. -/
def Mass.doMouseInteraction (sqrt : F → F) (mousePos moveV : Vec2 F)
    (mouseInteractionDistance : F) (m : Mass F) : Mass F :=
  let distance := dist sqrt m.pos mousePos
  if distance < mouseInteractionDistance then { m with acc := m.acc + moveV } else m

/-- Two masses agree in everything but `acc`. -/
def Mass.sameButAcc (m1 m2 : Mass F) : Prop :=
  m1.mass = m2.mass ∧ m1.r = m2.r ∧ m1.pos = m2.pos ∧ m1.lastPos = m2.lastPos

instance (m1 m2 : Mass F) : Decidable (m1.sameButAcc m2) := by
  unfold Mass.sameButAcc
  infer_instance

/-- Two meshes have the same springs and masses that agree in everything
but `acc`. -/
def SpringMassMesh.sameButAcc (s1 s2 : SpringMassMesh F) : Prop :=
  List.Forall₂ Mass.sameButAcc s1.masses s2.masses ∧ s1.springs = s2.springs

instance (s1 s2 : SpringMassMesh F) : Decidable (s1.sameButAcc s2) := by
  unfold SpringMassMesh.sameButAcc
  infer_instance

/-- Two worlds differ only in the `acc` values of their particles. -/
def World.sameButAcc (w1 w2 : World F) : Prop :=
  List.Forall₂ SpringMassMesh.sameButAcc w1.meshes w2.meshes ∧
  w1.activeBound = w2.activeBound ∧ w1.bounceEnergy = w2.bounceEnergy

instance (w1 w2 : World F) : Decidable (w1.sameButAcc w2) := by
  unfold World.sameButAcc
  infer_instance

/-- Lines 424-428 of `main`: the forces are accumulated and the masses
moved (`resetMassAcc`, `calculateSpringAcc`, the optional
`doMouseInteraction` and `applyExternalForce`, `moveMasses`). -/
def World.forcesAndMove (dt : F) (sqrt : F → F) (inp : Input F) (w : World F) :
    Option (World F) :=
  let w := w.resetMassAcc
  (w.calculateSpringAcc sqrt).bind fun w =>
  (if inp.leftPressed then
      (if dt = 0 then none
       else some (w.doMouseInteraction sqrt inp.mousePos
              ((inp.mousePos - inp.lastMousePos) / dt * (5 : F)) 100))
    else some w).map fun w =>
  let w := if inp.gToggle then w.applyExternalForce ⟨0, 500⟩ else w
  w.moveMasses dt

/-- The positions `pos` and `lastPos` of all particles, in mesh order. -/
def World.positions (w : World F) : List (Vec2 F × Vec2 F) :=
  w.allMasses.map (fun m => (m.pos, m.lastPos))

/-! ## Totals over the particles -/

/-- Sum of the positions of a list of particles, component by component. -/
def sumPos (ms : List (Mass F)) : Vec2 F :=
  ⟨(ms.map (fun m => m.pos.x)).sum, (ms.map (fun m => m.pos.y)).sum⟩

/-- Sum of the `acc` fields of a list of particles, component by component. -/
def sumAcc (ms : List (Mass F)) : Vec2 F :=
  ⟨(ms.map (fun m => m.acc.x)).sum, (ms.map (fun m => m.acc.y)).sum⟩

/-- The fields of a particle that no collision correction writes. -/
def Mass.fixedPart (m : Mass F) : Vec2 F × F × F := (m.lastPos, m.mass, m.r)

/-! ## Mesh construction (`namespace Make`) -/

/-- The values `lo, lo + 1, …, hi - 1` that the counter of a loop
`for (int x = lo; x < hi; ++x)` runs through, in order. -/
def intRange (lo hi : Int) : List Int :=
  (List.range (hi - lo).toNat).map (fun (k : Nat) => lo + (k : Int))

/-- The function `Make::Rectangle` (lines 157-183), for the global time step
`dt`. The loop bounds are `std::floor(-(float)width/2.0f)` and
`std::floor((float)width/2.0f)`; a spring joins every ordered pair of distinct
particles at most `len({spacing, spacing}) * 1.5f` apart, with stiffness
`50000` and damping `4000`. -/
def Make.Rectangle [FloorRing F] (dt : F) (sqrt : F → F) (startPos : Vec2 F)
    (width height : Int) (spacing r nodeMass : F) : SpringMassMesh F :=
  let masses := (intRange ⌊-(width : F) / 2⌋ ⌊(width : F) / 2⌋).flatMap (fun (x : Int) =>
    (intRange ⌊-(height : F) / 2⌋ ⌊(height : F) / 2⌋).map (fun (y : Int) =>
      Mass.new dt (startPos + ⟨(x : F) * spacing, (y : F) * spacing⟩) r ⟨0, 0⟩ nodeMass))
  let springs := (List.range masses.length).flatMap (fun i =>
    (List.range masses.length).filterMap (fun x =>
      if x ≠ i then
        match masses[i]?, masses[x]? with
        | some mi, some mx =>
          let distance := dist sqrt mi.pos mx.pos
          if distance ≤ len sqrt ⟨spacing, spacing⟩ * (3 / 2 : F) then
            some ⟨i, x, distance, 50000, 4000⟩
          else none
        | _, _ => none
      else none))
  ⟨masses, springs⟩

end Defs

/-- A square root on the rationals that is exact on squares of rationals
(used to evaluate the embedding on concrete inputs). -/
def ratSqrt (q : ℚ) : ℚ := (Nat.sqrt q.num.toNat : ℚ) / (Nat.sqrt q.den : ℚ)

/-! ## Concrete inputs -/

/-- The boundary `[0, 100] × [0, 100]`. -/
def unitBound : Bound ℚ := ⟨⟨0, 0⟩, ⟨100, 100⟩⟩

/-- A world of one mesh holding the given masses and no spring, inside
`unitBound`, with the given `bounceEnergy`. -/
def looseWorld (bounceEnergy : ℚ) (ms : List (Mass ℚ)) : World ℚ :=
  ⟨[⟨ms, []⟩], unitBound, bounceEnergy⟩

/-- A particle of mass 1 and radius 10 at rest below the minimum of
`unitBound` on both axes. -/
def cornerMass : Mass ℚ := ⟨1, 10, ⟨-1, -1⟩, ⟨-1, -1⟩, ⟨0, 0⟩⟩

/-- A particle left of `unitBound` on `x` and above its maximum on `y`. -/
def mixedCornerMass : Mass ℚ := ⟨1, 10, ⟨-1, 120⟩, ⟨-1, 120⟩, ⟨0, 0⟩⟩

/-- A particle left of `unitBound` that was further left one step back: it
moves towards the boundary from outside. -/
def returningMass : Mass ℚ := ⟨1, 10, ⟨-1, 50⟩, ⟨-10, 50⟩, ⟨0, 0⟩⟩

/-- A particle that has just left `unitBound` through its left edge. -/
def leavingMass : Mass ℚ := ⟨1, 10, ⟨-1, 50⟩, ⟨1, 50⟩, ⟨0, 0⟩⟩

/-- The spring of the two-particle scenario: endpoints 0 and 1, rest length
100, the default stiffness and damping of the source. -/
def restSpring : Spring ℚ := ⟨0, 1, 100, 30000, 5000⟩

/-- A moving particle of mass 1 at `(0, 0)`. -/
def movingA : Mass ℚ := ⟨1, 1, ⟨0, 0⟩, ⟨1, 0⟩, ⟨0, 0⟩⟩

/-- A moving particle of mass 2 at `(3, 4)`. -/
def movingB : Mass ℚ := ⟨2, 1, ⟨3, 4⟩, ⟨3, 5⟩, ⟨0, 0⟩⟩

/-- The masses of a mesh of the two moving particles. -/
def movingPair : List (Mass ℚ) := [movingA, movingB]

/-- A spring between endpoints 0 and 1 with rest length 0: the rest length
of a spring built on two particles at the same position. -/
def zeroSpring : Spring ℚ := ⟨0, 1, 0, 30000, 5000⟩

/-- A particle of mass 1 and radius 10 at rest at `(50, 50)`. -/
def stillMass : Mass ℚ := ⟨1, 10, ⟨50, 50⟩, ⟨50, 50⟩, ⟨0, 0⟩⟩

/-- Two particles at the same position. -/
def coincidentPair : List (Mass ℚ) := [stillMass, stillMass]

/-- The left particle of the head-on scenario: radius 10 at `(0, 0)`. -/
def headOnA : Mass ℚ := ⟨1, 10, ⟨0, 0⟩, ⟨-1, 0⟩, ⟨0, 0⟩⟩

/-- The right particle of the head-on scenario: radius 10 at `(15, 0)`. -/
def headOnB : Mass ℚ := ⟨3, 10, ⟨15, 0⟩, ⟨16, 0⟩, ⟨0, 0⟩⟩

/-- The boundary that `main` constructs: `Bound bound({0, 0}, {WIDTH, HEIGHT})`. -/
def mainBound : Bound ℚ := ⟨⟨0, 0⟩, ⟨(WIDTH : ℚ), (HEIGHT : ℚ)⟩⟩

/-- The first particle of the spring-at-rest scenario, at `(0, 0)`. -/
def restA : Mass ℚ := ⟨1, 15, ⟨0, 0⟩, ⟨0, 0⟩, ⟨0, 0⟩⟩

/-- The second particle of the spring-at-rest scenario, at `(100, 0)`. -/
def restB : Mass ℚ := ⟨1, 15, ⟨100, 0⟩, ⟨100, 0⟩, ⟨0, 0⟩⟩

/-- The world of the spring-at-rest scenario: one mesh of two particles
joined by `restSpring`, inside `mainBound`. -/
def restWorld : World ℚ := ⟨[⟨[restA, restB], [restSpring]⟩], mainBound, 1⟩

/-- The boundary of the free-fall scenario, with its floor at `y = 1000`. -/
def fallBound : Bound ℚ := ⟨⟨0, 0⟩, ⟨1000, 1000⟩⟩

/-- The world of the free-fall scenario with its particle (mass 1, radius
10) at `(x, y)`, one step back at `(x, l)`: one mesh of one particle and no
spring, inside `fallBound`, with the default `bounceEnergy` 1. -/
def fallAt (x y l : ℚ) (acc : Vec2 ℚ) : World ℚ :=
  ⟨[⟨[⟨1, 10, ⟨x, y⟩, ⟨x, l⟩, acc⟩], []⟩], fallBound, 1⟩

/-- The free-fall scenario started at rest at height `990 = 1000 - radius`. -/
def fallWorld : World ℚ := fallAt 500 990 990 ⟨0, 0⟩

/-- Energy of the falling particle at height `y`, one step back at height
`l`, in units of height above the floor `y = 1000`, for the step
acceleration `500 · dt² = 5/576`; used to bound the number of passes until
the particle rests. -/
def fallEnergy (y l : ℚ) : ℚ := (y - l) * (y - l + 5 / 576) * (288 / 5) + (1000 - y)

/-- What every state of the free fall from rest satisfies: the particle is
between top and floor, its energy is at most 1000, and it either moves
down or has lost energy in a bounce. -/
def fallInv (y l : ℚ) : Prop :=
  0 ≤ y ∧ y ≤ 1000 ∧ fallEnergy y l ≤ 1000 ∧ (l ≤ y ∨ fallEnergy y l ≤ 1000 - 5 / 576)

/-- A potential that drops by at least 1 with every pass of the free fall
until the particle rests. -/
def fallPotential (y l : ℚ) : ℚ :=
  (7913 * (576 / 5)) * (fallEnergy y l + 5 / 4608)
    + (5 * (6 * (576 / 5)) + 1000 - (6 * (576 / 5)) * (y - l) - y)

/-- The vector `(3, 4)`, of length 5. -/
def threeFour : Vec2 ℚ := ⟨3, 4⟩

/-- A world of two meshes of one particle each and no spring, inside
`unitBound`, with `bounceEnergy = 1`. -/
def twoMeshWorld (a b : Mass ℚ) : World ℚ :=
  ⟨[⟨[a], []⟩, ⟨[b], []⟩], unitBound, 1⟩

/-- The left particle of the fractional-overlap scenario: radius 10 at
rest at `(0, 0)`. -/
def fracA : Mass ℚ := ⟨1, 10, ⟨0, 0⟩, ⟨0, 0⟩, ⟨0, 0⟩⟩

/-- The right particle of the fractional-overlap scenario: radius 10 at rest
at `(17.5, 0)`, overlapping `fracA` by 2.5. -/
def fracB : Mass ℚ := ⟨3, 10, ⟨35 / 2, 0⟩, ⟨35 / 2, 0⟩, ⟨0, 0⟩⟩

/-- A particle of radius 10 at rest at `(19.5, 0)`, overlapping `fracA` by
0.5. -/
def fracC : Mass ℚ := ⟨3, 10, ⟨39 / 2, 0⟩, ⟨39 / 2, 0⟩, ⟨0, 0⟩⟩

/-! ## Auxiliary facts -/

section Lemmas

variable {F : Type} [LinearOrderedField F]

@[simp] theorem Vec2.zero_x : (0 : Vec2 F).x = 0 := rfl
@[simp] theorem Vec2.zero_y : (0 : Vec2 F).y = 0 := rfl
@[simp] theorem Vec2.add_x (a b : Vec2 F) : (a + b).x = a.x + b.x := rfl
@[simp] theorem Vec2.add_y (a b : Vec2 F) : (a + b).y = a.y + b.y := rfl
@[simp] theorem Vec2.sub_x (a b : Vec2 F) : (a - b).x = a.x - b.x := rfl
@[simp] theorem Vec2.sub_y (a b : Vec2 F) : (a - b).y = a.y - b.y := rfl
@[simp] theorem Vec2.neg_x (a : Vec2 F) : (-a).x = -a.x := rfl
@[simp] theorem Vec2.neg_y (a : Vec2 F) : (-a).y = -a.y := rfl
@[simp] theorem Vec2.mul_x (a : Vec2 F) (s : F) : (a * s).x = a.x * s := rfl
@[simp] theorem Vec2.mul_y (a : Vec2 F) (s : F) : (a * s).y = a.y * s := rfl
@[simp] theorem Vec2.smul_x (s : F) (a : Vec2 F) : (s * a).x = a.x * s := rfl
@[simp] theorem Vec2.smul_y (s : F) (a : Vec2 F) : (s * a).y = a.y * s := rfl
@[simp] theorem Vec2.div_x (a : Vec2 F) (s : F) : (a / s).x = a.x / s := rfl
@[simp] theorem Vec2.div_y (a : Vec2 F) (s : F) : (a / s).y = a.y / s := rfl

omit [LinearOrderedField F] in
theorem World.allMasses_forMasses (f : Mass F → Mass F) (w : World F) :
    (w.forMasses f).allMasses = w.allMasses.map f := by
  simp only [World.allMasses, World.forMasses, List.map_map, List.map_flatten]
  rfl

theorem World.allMasses_checkBounds (w : World F) :
    w.checkBounds.allMasses = w.allMasses.map (Mass.checkBounds w.activeBound w.bounceEnergy) :=
  World.allMasses_forMasses _ w

/-- A reflected and attenuated velocity is no larger than the velocity with
which the edge `e` was crossed from the inner side. -/
theorem abs_bounce_le (b e l p : F) (hb : |b| ≤ 1)
    (h : (p < e ∧ e ≤ l) ∨ (e < p ∧ l ≤ e)) :
    |(l - e) * b| ≤ |p - l| := by
  rw [abs_mul]
  have h2 : |l - e| * |b| ≤ |l - e| := by
    calc |l - e| * |b| ≤ |l - e| * 1 := mul_le_mul_of_nonneg_left hb (abs_nonneg _)
      _ = |l - e| := mul_one _
  refine h2.trans ?_
  rcases h with ⟨h3, h4⟩ | ⟨h3, h4⟩
  · rw [abs_of_nonneg (by linarith), abs_of_neg (by linarith)]
    linarith
  · rw [abs_of_nonpos (by linarith), abs_of_pos (by linarith)]
    linarith

theorem getElem?_addAcc (i j : Nat) (a : Vec2 F) (ms : List (Mass F)) :
    (addAcc i a ms)[j]?
      = (ms[j]?).map (fun m => if i = j then { m with acc := m.acc + a } else m) :=
  List.getElem?_modify _ _ _ _

theorem getElem?_subAcc (i j : Nat) (a : Vec2 F) (ms : List (Mass F)) :
    (subAcc i a ms)[j]?
      = (ms[j]?).map (fun m => if i = j then { m with acc := m.acc - a } else m) :=
  List.getElem?_modify _ _ _ _

theorem getElem?_addPos (i j : Nat) (a : Vec2 F) (ms : List (Mass F)) :
    (addPos i a ms)[j]?
      = (ms[j]?).map (fun m => if i = j then { m with pos := m.pos + a } else m) :=
  List.getElem?_modify _ _ _ _

theorem getElem?_subPos (i j : Nat) (a : Vec2 F) (ms : List (Mass F)) :
    (subPos i a ms)[j]?
      = (ms[j]?).map (fun m => if i = j then { m with pos := m.pos - a } else m) :=
  List.getElem?_modify _ _ _ _

/-- The rational square root is exact on squares. -/
theorem ratSqrt_mul_self (q : ℚ) (hq : 0 ≤ q) : ratSqrt (q * q) = q := by
  unfold ratSqrt
  rw [Rat.mul_self_num, Rat.mul_self_den]
  have hn : 0 ≤ q.num := Rat.num_nonneg.mpr hq
  obtain ⟨n, hn'⟩ := Int.eq_ofNat_of_zero_le hn
  have h1 : (q.num * q.num).toNat = n * n := by
    rw [hn', ← Int.natCast_mul, Int.toNat_natCast]
  rw [h1, Nat.sqrt_eq, Nat.sqrt_eq]
  have h2 : (n : ℚ) = (q.num : ℚ) := by rw [hn']; rfl
  rw [h2]
  exact Rat.num_div_den q

theorem ratSqrt_zero : ratSqrt 0 = 0 := by simp [ratSqrt]

theorem addAcc_zero (i : Nat) (ms : List (Mass F)) : addAcc i ⟨0, 0⟩ ms = ms := by
  apply List.ext_getElem?
  intro j
  rw [getElem?_addAcc]
  cases ms[j]? with
  | none => rfl
  | some m =>
    simp only [Option.map_some']
    split_ifs
    · congr 1; ext <;> simp
    · rfl

theorem subAcc_zero (i : Nat) (ms : List (Mass F)) : subAcc i ⟨0, 0⟩ ms = ms := by
  apply List.ext_getElem?
  intro j
  rw [getElem?_subAcc]
  cases ms[j]? with
  | none => rfl
  | some m =>
    simp only [Option.map_some']
    split_ifs
    · congr 1; ext <;> simp
    · rfl

/-- The spring direction of two particles at the same position is the zero
vector, provided `sqrt 0 = 0`. -/
theorem normalize_sub_self (sqrt : F → F) (hs0 : sqrt 0 = 0) (p : Vec2 F) :
    normalize sqrt (p - p) = ⟨0, 0⟩ := by
  simp [normalize, len, hs0]

omit [LinearOrderedField F] in
theorem allMasses_setMasses (meshes : List (SpringMassMesh F)) (ms : List (Mass F))
    (h : ms.length = ((meshes.map (fun s => s.masses)).flatten).length) :
    ((setMasses meshes ms).map (fun s => s.masses)).flatten = ms := by
  induction meshes generalizing ms with
  | nil =>
    simp at h
    simp [setMasses, h]
  | cons s rest ih =>
    simp only [setMasses, List.map_cons, List.flatten_cons]
    rw [ih]
    · exact List.take_append_drop _ _
    · simp only [List.map_cons, List.flatten_cons, List.length_append] at h
      simp [List.length_drop, h]

theorem intAbs_zero [FloorRing F] : intAbs (0 : F) = 0 := by
  simp [intAbs, toInt]

/-- On a value `v ≤ 0` the integer `abs` gives the integer part of `-v`. -/
theorem intAbs_of_nonpos [FloorRing F] (v : F) (hv : v ≤ 0) : intAbs v = ((⌊-v⌋ : Int) : F) := by
  unfold intAbs toInt
  congr 1
  split_ifs with h
  · have h0 : v = 0 := le_antisymm hv h
    simp [h0]
  · have hc : ⌈v⌉ ≤ 0 := Int.ceil_le.mpr (by simpa using hv)
    rw [abs_of_nonpos hc, Int.floor_neg]

/-- The inner loop body on two overlapping particles at distinct positions:
both are moved by half of, and get the impulse of, `k = intAbs (d - (r1 + r2))`,
the value that line 342 computes from the overlap. -/
theorem collidePair_overlap [FloorRing F] (dt : F) (sqrt : F → F) (a b : Mass F) (d : F)
    (hd : sqrt (lenSqr (b.pos - a.pos)) = d) (hdd : d * d = lenSqr (b.pos - a.pos))
    (hd0 : 0 < d) (hlt : d < a.r + b.r) :
    collidePair dt sqrt [a, b] (0, 1) = some
      [{ a with pos := a.pos - (b.pos - a.pos) / d * intAbs (d - (b.r + a.r)) / (2 : F),
                acc := a.acc - (b.pos - a.pos) / d * intAbs (d - (b.r + a.r)) * dt
                  * (100000 : F) },
       { b with pos := b.pos + (b.pos - a.pos) / d * intAbs (d - (b.r + a.r)) / (2 : F),
                acc := b.acc + (b.pos - a.pos) / d * intAbs (d - (b.r + a.r)) * dt
                  * (100000 : F) }] := by
  have h1 : ¬ (lenSqr (b.pos - a.pos) - (b.r + a.r) * (b.r + a.r) > 0) := by
    rw [← hdd]; nlinarith
  have h2 : d - (b.r + a.r) ≤ 0 := by linarith
  have h3 : d - (b.r + a.r) + (b.r + a.r) = d := by ring
  simp only [collidePair]
  simp [h1, hd, h2, h3, hd0.ne', addPos, subPos, addAcc, subAcc]

theorem addPos_zero (i : Nat) (ms : List (Mass F)) : addPos i ⟨0, 0⟩ ms = ms := by
  apply List.ext_getElem?
  intro j
  rw [getElem?_addPos]
  cases ms[j]? with
  | none => rfl
  | some m =>
    simp only [Option.map_some']
    split_ifs
    · congr 1; ext <;> simp
    · rfl

theorem subPos_zero (i : Nat) (ms : List (Mass F)) : subPos i ⟨0, 0⟩ ms = ms := by
  apply List.ext_getElem?
  intro j
  rw [getElem?_subPos]
  cases ms[j]? with
  | none => rfl
  | some m =>
    simp only [Option.map_some']
    split_ifs
    · congr 1; ext <;> simp
    · rfl

theorem collidePair_apart [FloorRing F] (dt : F) (sqrt : F → F) (a b : Mass F) (L : F)
    (hd : sqrt (lenSqr (b.pos - a.pos)) = L) (hL : 0 < L) (hR : a.r + b.r ≤ L) :
    collidePair dt sqrt [a, b] (0, 1) = some [a, b] := by
  have hz : ∀ (v : Vec2 F) (c : F), v * (0 : F) / c = ⟨0, 0⟩ := by
    intro v c; ext <;> simp
  have hz2 : ∀ (v : Vec2 F) (c e : F), v * (0 : F) * c * e = ⟨0, 0⟩ := by
    intro v c e; ext <;> simp
  simp only [collidePair]
  simp only [ne_eq, one_ne_zero, not_false_eq_true, ↓reduceIte, List.getElem?_cons_succ,
    List.getElem?_cons_zero, hd]
  split_ifs with h1 h2 h3
  · rfl
  · exfalso
    have : L - (b.r + a.r) + (b.r + a.r) = L := by ring
    rw [this] at h3
    exact hL.ne' h3
  · have h4 : L - (b.r + a.r) = 0 := le_antisymm h2 (by linarith)
    simp only [h4, intAbs_zero, hz, hz2, addPos_zero, subPos_zero, addAcc_zero, subAcc_zero]
  · rfl

omit [LinearOrderedField F] in
theorem setMasses_allMasses (meshes : List (SpringMassMesh F)) :
    setMasses meshes ((meshes.map (fun s => s.masses)).flatten) = meshes := by
  induction meshes with
  | nil => rfl
  | cons s rest ih =>
    simp only [setMasses, List.map_cons, List.flatten_cons, List.take_left', List.drop_left', ih]

theorem Mass.checkBounds_inside (bound : Bound F) (e : F) (m : Mass F)
    (hx1 : bound.pos.x ≤ m.pos.x) (hx2 : m.pos.x ≤ bound.pos.x + bound.size.x)
    (hy1 : bound.pos.y ≤ m.pos.y) (hy2 : m.pos.y ≤ bound.pos.y + bound.size.y) :
    m.checkBounds bound e = m := by
  simp [Mass.checkBounds, not_lt.mpr hx1, not_lt.mpr hx2, not_lt.mpr hy1, not_lt.mpr hy2]

omit [LinearOrderedField F] in
theorem World.forMasses_eq_self (f : Mass F → Mass F) (w : World F)
    (h : ∀ m ∈ w.allMasses, f m = m) : w.forMasses f = w := by
  cases w with
  | mk meshes bound e =>
    simp only [World.forMasses, World.mk.injEq, and_true]
    simp only [World.allMasses] at h
    induction meshes with
    | nil => rfl
    | cons s rest ih =>
      simp only [List.map_cons, List.flatten_cons, List.mem_append] at h
      rw [List.map_cons, ih (fun m hm => h m (Or.inr hm))]
      congr 1
      cases s with
      | mk masses springs =>
        simp only [SpringMassMesh.mk.injEq, and_true]
        have h2 := List.map_congr_left (l := masses) (f := f) (g := id)
          (fun m hm => h m (Or.inl hm))
        simpa using h2

theorem World.checkExternalCollision_apart [FloorRing F] (dt : F) (sqrt : F → F) (w : World F)
    (a b : Mass F) (L : F) (hw : w.allMasses = [a, b])
    (hd : sqrt (lenSqr (b.pos - a.pos)) = L) (hL : 0 < L) (hR : a.r + b.r ≤ L) :
    w.checkExternalCollision dt sqrt = some w := by
  have hset : setMasses w.meshes [a, b] = w.meshes := by
    rw [← hw]; exact setMasses_allMasses _
  simp only [World.checkExternalCollision, hw]
  rw [show collisionPairs ([a, b] : List (Mass F)).length = [(0, 1)] from rfl]
  simp [List.foldlM_cons, collidePair_apart dt sqrt a b L hd hL hR, hset]

theorem Spring.force_rest (sqrt : F → F) (s : Spring F) (m1 m2 : Mass F)
    (h : dist sqrt m1.pos m2.pos = s.restLen) : s.force sqrt m1 m2 = ⟨0, 0⟩ := by
  simp only [Spring.force, h, sub_self, zero_div]
  ext <;> simp

theorem Spring.dampingForce_rest (sqrt : F → F) (s : Spring F) (m1 m2 : Mass F)
    (h1 : m1.pos = m1.lastPos) (h2 : m2.pos = m2.lastPos) :
    s.dampingForce sqrt m1 m2 = ⟨0, 0⟩ := by
  simp only [Spring.dampingForce, h1, h2]
  ext <;> simp [dot]

theorem Spring.calculateMassAcc_of_zero (sqrt : F → F) (s : Spring F) (ms : List (Mass F))
    (m1 m2 : Mass F) (h1 : ms[s.m1]? = some m1) (h2 : ms[s.m2]? = some m2)
    (hm1 : m1.mass ≠ 0) (hm2 : m2.mass ≠ 0) (hr : s.restLen ≠ 0)
    (hf : s.force sqrt m1 m2 = ⟨0, 0⟩) (hd : s.dampingForce sqrt m1 m2 = ⟨0, 0⟩) :
    s.elastic sqrt ms = some ms ∧ s.damping sqrt ms = some ms ∧
    s.calculateMassAcc sqrt ms = some ms := by
  have hz : ∀ c : F, (⟨0, 0⟩ : Vec2 F) / c = ⟨0, 0⟩ := by
    intro c; ext <;> simp
  have e1 : s.elastic sqrt ms = some ms := by
    simp [Spring.elastic, h1, h2, hr, hm1, hm2, hf, hz, addAcc_zero, subAcc_zero]
  have e2 : s.damping sqrt ms = some ms := by
    simp [Spring.damping, h1, h2, hm1, hm2, hd, hz, addAcc_zero, subAcc_zero]
  exact ⟨e1, e2, by simp [Spring.calculateMassAcc, e1, e2]⟩

theorem Mass.move_rest (dt : F) (m : Mass F) (h : m.pos = m.lastPos) (ha : m.acc = ⟨0, 0⟩) :
    m.move dt = m := by
  ext <;> simp [Mass.move, ← h, ha]

theorem lenSqr_sub_comm (p q : Vec2 F) : lenSqr (p - q) = lenSqr (q - p) := by
  simp only [lenSqr, Vec2.sub_x, Vec2.sub_y]; ring

/-- One pass of the main loop on the two-particle spring at rest. -/
theorem World.update_rest [FloorRing F] (dt : F) (sqrt : F → F) (w : World F) (a b : Mass F) (s : Spring F)
    (hw : w.meshes = [⟨[a, b], [s]⟩])
    (hs : (s.m1 = 0 ∧ s.m2 = 1) ∨ (s.m1 = 1 ∧ s.m2 = 0))
    (hd : sqrt (lenSqr (b.pos - a.pos)) = s.restLen) (hL : 0 < s.restLen)
    (hva : a.pos = a.lastPos) (hvb : b.pos = b.lastPos)
    (hma : 0 < a.mass) (hmb : 0 < b.mass) (hR : a.r + b.r ≤ s.restLen)
    (hia : w.activeBound.contains a.pos) (hib : w.activeBound.contains b.pos) :
    w.update dt sqrt Input.idle
      = some { w with meshes := [⟨[{ a with acc := ⟨0, 0⟩ }, { b with acc := ⟨0, 0⟩ }], [s]⟩] } := by
  obtain ⟨a0, ha0⟩ : ∃ a0 : Mass F, a0 = { a with acc := ⟨0, 0⟩ } := ⟨_, rfl⟩
  obtain ⟨b0, hb0⟩ : ∃ b0 : Mass F, b0 = { b with acc := ⟨0, 0⟩ } := ⟨_, rfl⟩
  obtain ⟨w0, hw0⟩ : ∃ w0 : World F, w0 = { w with meshes := [⟨[a0, b0], [s]⟩] } := ⟨_, rfl⟩
  rw [← ha0, ← hb0, ← hw0]
  have hall : w0.allMasses = [a0, b0] := by rw [hw0]; rfl
  have hreset : w.resetMassAcc = w0 := by
    rw [hw0, ha0, hb0]
    simp [World.resetMassAcc, World.forMasses, hw]
  have hd0 : sqrt (lenSqr (b0.pos - a0.pos)) = s.restLen := by rw [ha0, hb0]; exact hd
  have hcalc : s.calculateMassAcc sqrt [a0, b0] = some [a0, b0] := by
    rcases hs with ⟨h1, h2⟩ | ⟨h1, h2⟩
    · refine (Spring.calculateMassAcc_of_zero sqrt s [a0, b0] a0 b0 (by rw [h1]; rfl)
        (by rw [h2]; rfl) (by rw [ha0]; exact hma.ne') (by rw [hb0]; exact hmb.ne') hL.ne'
        (Spring.force_rest sqrt s a0 b0 ?_)
        (Spring.dampingForce_rest sqrt s a0 b0 (by rw [ha0]; exact hva)
          (by rw [hb0]; exact hvb))).2.2
      exact hd0
    · refine (Spring.calculateMassAcc_of_zero sqrt s [a0, b0] b0 a0 (by rw [h1]; rfl)
        (by rw [h2]; rfl) (by rw [hb0]; exact hmb.ne') (by rw [ha0]; exact hma.ne') hL.ne'
        (Spring.force_rest sqrt s b0 a0 ?_)
        (Spring.dampingForce_rest sqrt s b0 a0 (by rw [hb0]; exact hvb)
          (by rw [ha0]; exact hva))).2.2
      rw [← hd0, lenSqr_sub_comm]; rfl
  have hspring : w0.calculateSpringAcc sqrt = some w0 := by
    rw [hw0]
    simp only [World.calculateSpringAcc, List.mapM_cons, List.mapM_nil,
      SpringMassMesh.calculateSpringAcc, List.foldlM_cons, List.foldlM_nil, hcalc]
    rfl
  have hmove : w0.moveMasses dt = w0 := by
    apply World.forMasses_eq_self
    intro m hm
    rw [hall] at hm
    simp only [List.mem_cons, List.mem_singleton, List.not_mem_nil, or_false] at hm
    rcases hm with rfl | rfl
    · exact Mass.move_rest dt _ (by rw [ha0]; exact hva) (by rw [ha0])
    · exact Mass.move_rest dt _ (by rw [hb0]; exact hvb) (by rw [hb0])
  have hbounds : w0.checkBounds = w0 := by
    apply World.forMasses_eq_self
    intro m hm
    rw [hall] at hm
    simp only [List.mem_cons, List.mem_singleton, List.not_mem_nil, or_false] at hm
    have hbd : w0.activeBound = w.activeBound := by rw [hw0]
    rcases hm with rfl | rfl
    · rw [hbd]
      exact Mass.checkBounds_inside _ _ _ (by rw [ha0]; exact hia.1) (by rw [ha0]; exact hia.2.1)
        (by rw [ha0]; exact hia.2.2.1) (by rw [ha0]; exact hia.2.2.2)
    · rw [hbd]
      exact Mass.checkBounds_inside _ _ _ (by rw [hb0]; exact hib.1) (by rw [hb0]; exact hib.2.1)
        (by rw [hb0]; exact hib.2.2.1) (by rw [hb0]; exact hib.2.2.2)
  have hrelax : w0.relax dt sqrt = some w0 := by
    simp [World.relax, World.checkExternalCollision_apart dt sqrt w0 a0 b0 s.restLen hall hd0 hL
      (by rw [ha0, hb0]; exact hR), hbounds]
  simp [World.update, hreset, hspring, hmove, World.relaxN, hrelax, Input.idle]

theorem World.relax_single [FloorRing F] (dt : F) (sqrt : F → F) (m : Mass F) (bound : Bound F) (e : F) :
    (⟨[⟨[m], []⟩], bound, e⟩ : World F).relax dt sqrt
      = some ⟨[⟨[m.checkBounds bound e], []⟩], bound, e⟩ := by
  simp only [World.relax, World.checkExternalCollision]
  rw [show (⟨[⟨[m], []⟩], bound, e⟩ : World F).allMasses = [m] from rfl,
    show collisionPairs ([m] : List (Mass F)).length = [] from rfl]
  rfl

theorem World.update_single_gravity [FloorRing F] (dt : F) (sqrt : F → F) (m : Mass F) (bound : Bound F)
    (e : F) :
    (⟨[⟨[m], []⟩], bound, e⟩ : World F).update dt sqrt Input.gravity
      = some ⟨[⟨[((((Mass.move dt { m with acc := (⟨0, 0⟩ : Vec2 F) + ⟨0, 500⟩ }).checkBounds
          bound e).checkBounds bound e).checkBounds bound e)], []⟩], bound, e⟩ := by
  have h1 : (⟨[⟨[m], []⟩], bound, e⟩ : World F).resetMassAcc
      = ⟨[⟨[{ m with acc := ⟨0, 0⟩ }], []⟩], bound, e⟩ := rfl
  have h2 : ∀ m' : Mass F, (⟨[⟨[m'], []⟩], bound, e⟩ : World F).calculateSpringAcc sqrt
      = some ⟨[⟨[m'], []⟩], bound, e⟩ := by
    intro m'
    simp only [World.calculateSpringAcc, List.mapM_cons, List.mapM_nil,
      SpringMassMesh.calculateSpringAcc, List.foldlM_nil]
    rfl
  simp only [World.update, h1, h2, Option.some_bind, Input.gravity]
  simp only [Bool.false_eq_true, ↓reduceIte, Option.some_bind, World.applyExternalForce,
    World.moveMasses, World.forMasses, List.map_cons, List.map_nil, World.relaxN,
    World.relax_single, Option.map_some']

theorem fallAt_step_free (x y l : ℚ) (a : Vec2 ℚ) (hx0 : 0 ≤ x) (hx1 : x ≤ 1000)
    (h0 : 0 ≤ 2 * y - l + 5 / 576) (h1 : 2 * y - l + 5 / 576 ≤ 1000) :
    (fallAt x y l a).update dt ratSqrt Input.gravity
      = some (fallAt x (2 * y - l + 5 / 576) y ⟨0, 500⟩) := by
  rw [fallAt, World.update_single_gravity]
  have hm : Mass.move dt { (⟨1, 10, ⟨x, y⟩, ⟨x, l⟩, a⟩ : Mass ℚ) with
        acc := (⟨0, 0⟩ : Vec2 ℚ) + ⟨0, 500⟩ }
      = ⟨1, 10, ⟨x, 2 * y - l + 5 / 576⟩, ⟨x, y⟩, ⟨0, 500⟩⟩ := by
    ext <;> norm_num [Mass.move, dt, MAX_FRAMES]
    ring
  rw [hm]
  have hin : (⟨1, 10, ⟨x, 2 * y - l + 5 / 576⟩, ⟨x, y⟩, ⟨0, 500⟩⟩ : Mass ℚ).checkBounds
      fallBound 1 = ⟨1, 10, ⟨x, 2 * y - l + 5 / 576⟩, ⟨x, y⟩, ⟨0, 500⟩⟩ :=
    Mass.checkBounds_inside _ _ _ (by simpa [fallBound] using hx0)
      (by simpa [fallBound] using hx1) (by simpa [fallBound] using h0)
      (by simpa [fallBound] using h1)
  rw [hin, hin, hin]
  rfl

theorem fallAt_step_floor (x y l : ℚ) (a : Vec2 ℚ) (hx0 : 0 ≤ x) (hx1 : x ≤ 1000)
    (h : 1000 < 2 * y - l + 5 / 576) :
    (fallAt x y l a).update dt ratSqrt Input.gravity
      = some (fallAt x 1000 (2000 - y) ⟨0, 500⟩) := by
  rw [fallAt, World.update_single_gravity]
  have hm : Mass.move dt { (⟨1, 10, ⟨x, y⟩, ⟨x, l⟩, a⟩ : Mass ℚ) with
        acc := (⟨0, 0⟩ : Vec2 ℚ) + ⟨0, 500⟩ }
      = ⟨1, 10, ⟨x, 2 * y - l + 5 / 576⟩, ⟨x, y⟩, ⟨0, 500⟩⟩ := by
    ext <;> norm_num [Mass.move, dt, MAX_FRAMES]
    ring
  rw [hm]
  have hcl : (⟨1, 10, ⟨x, 2 * y - l + 5 / 576⟩, ⟨x, y⟩, ⟨0, 500⟩⟩ : Mass ℚ).checkBounds
      fallBound 1 = ⟨1, 10, ⟨x, 1000⟩, ⟨x, 2000 - y⟩, ⟨0, 500⟩⟩ := by
    have h2 : ¬ (2 * y - l + 5 / 576 < 0) := by linarith
    simp only [Mass.checkBounds, Mass.changeVel, fallBound]
    norm_num [h, h2, not_lt.mpr hx0, not_lt.mpr hx1]
    ring
  have hin : (⟨1, 10, ⟨x, 1000⟩, ⟨x, 2000 - y⟩, ⟨0, 500⟩⟩ : Mass ℚ).checkBounds
      fallBound 1 = ⟨1, 10, ⟨x, 1000⟩, ⟨x, 2000 - y⟩, ⟨0, 500⟩⟩ :=
    Mass.checkBounds_inside _ _ _ (by simpa [fallBound] using hx0)
      (by simpa [fallBound] using hx1) (by norm_num [fallBound]) (by norm_num [fallBound])
  rw [hcl, hin, hin]
  rfl

theorem World.run_append [FloorRing F] (dt : F) (sqrt : F → F)
    (l1 l2 : List (Input F)) (w : World F) :
    w.run dt sqrt (l1 ++ l2) = (w.run dt sqrt l1).bind (World.run dt sqrt l2) := by
  induction l1 generalizing w with
  | nil => rfl
  | cons i rest ih =>
    simp only [List.cons_append, World.run]
    cases w.update dt sqrt i with
    | none => rfl
    | some w' => simpa using ih w'

theorem fallInv_vel (y l : ℚ) (h : fallInv y l) : -5 ≤ y - l ∧ y - l ≤ 5 := by
  obtain ⟨h0, h1, h2, -⟩ := h
  unfold fallEnergy at h2
  constructor
  · by_contra hc
    push_neg at hc
    nlinarith
  · by_contra hc
    push_neg at hc
    nlinarith

theorem fallPotential_nonneg (y l : ℚ) (h : fallInv y l) : 0 ≤ fallPotential y l := by
  obtain ⟨hv1, hv2⟩ := fallInv_vel y l h
  obtain ⟨h0, h1, h2, -⟩ := h
  unfold fallPotential fallEnergy
  nlinarith [sq_nonneg (y - l + 5 / 1152)]

/-- A pass in free flight keeps the invariant, does not leave the boundary
through the top, and lowers the potential. -/
theorem fall_free_ok (y l : ℚ) (h : fallInv y l) (hp : 2 * y - l + 5 / 576 ≤ 1000) :
    0 ≤ 2 * y - l + 5 / 576 ∧ fallInv (2 * y - l + 5 / 576) y ∧
    fallPotential (2 * y - l + 5 / 576) y ≤ fallPotential y l - 1 := by
  obtain ⟨hv1, hv2⟩ := fallInv_vel y l h
  obtain ⟨h0, h1, h2, h3⟩ := h
  have hE : fallEnergy (2 * y - l + 5 / 576) y = fallEnergy y l := by
    unfold fallEnergy; ring
  have hp0 : 0 ≤ 2 * y - l + 5 / 576 := by
    rcases h3 with h3 | h3
    · linarith
    · unfold fallEnergy at h3
      nlinarith [sq_nonneg (y - l + 5 / 576 + 5 / 1152)]
  refine ⟨hp0, ⟨hp0, hp, by rw [hE]; exact h2, ?_⟩, ?_⟩
  · rcases h3 with h3 | h3
    · left; linarith
    · right; rw [hE]; exact h3
  · unfold fallPotential
    rw [hE]
    linarith

/-- A bounce from at least one step acceleration above the floor keeps the
invariant and lowers the potential. -/
theorem fall_bounce_ok (y l : ℚ) (h : fallInv y l) (hp : 1000 < 2 * y - l + 5 / 576)
    (he : 5 / 576 ≤ 1000 - y) :
    fallInv 1000 (2000 - y) ∧ fallPotential 1000 (2000 - y) ≤ fallPotential y l - 1 := by
  obtain ⟨hv1, hv2⟩ := fallInv_vel y l h
  obtain ⟨h0, h1, h2, h3⟩ := h
  have hE : fallEnergy 1000 (2000 - y) < fallEnergy y l - (1000 - y) := by
    unfold fallEnergy
    nlinarith
  refine ⟨⟨by norm_num, le_refl _, by linarith, Or.inr (by linarith)⟩, ?_⟩
  unfold fallPotential
  nlinarith

/-- The particle at rest on the floor stays there. -/
theorem fall_rest (x : ℚ) (hx0 : 0 ≤ x) (hx1 : x ≤ 1000) (k : Nat) :
    (fallAt x 1000 1000 ⟨0, 500⟩).run dt ratSqrt (List.replicate k Input.gravity)
      = some (fallAt x 1000 1000 ⟨0, 500⟩) := by
  induction k with
  | zero => rfl
  | succ k ih =>
    simp only [List.replicate_succ, World.run]
    rw [fallAt_step_floor _ _ _ _ hx0 hx1 (by norm_num)]
    norm_num [ih]

/-- From every state of the free fall the particle comes to rest on the
floor after finitely many passes. -/
theorem fall_reaches_rest (x : ℚ) (hx0 : 0 ≤ x) (hx1 : x ≤ 1000) (T : Nat) :
    ∀ (y l : ℚ) (a : Vec2 ℚ), fallInv y l → fallPotential y l < T →
      ∃ N, (fallAt x y l a).run dt ratSqrt (List.replicate N Input.gravity)
        = some (fallAt x 1000 1000 ⟨0, 500⟩) := by
  induction T with
  | zero =>
    intro y l a hinv hpot
    have h0 := fallPotential_nonneg y l hinv
    simp only [Nat.cast_zero] at hpot
    exact absurd hpot (not_lt.mpr h0)
  | succ T ih =>
    intro y l a hinv hpot
    push_cast at hpot
    by_cases hp : 2 * y - l + 5 / 576 ≤ 1000
    · obtain ⟨hp0, hinv', hpot'⟩ := fall_free_ok y l hinv hp
      obtain ⟨N, hN⟩ := ih _ _ ⟨0, 500⟩ hinv' (by linarith)
      refine ⟨N + 1, ?_⟩
      simp only [List.replicate_succ, World.run]
      rw [fallAt_step_free x y l a hx0 hx1 hp0 hp, Option.some_bind]
      exact hN
    · push_neg at hp
      by_cases he : 5 / 576 ≤ 1000 - y
      · obtain ⟨hinv', hpot'⟩ := fall_bounce_ok y l hinv hp he
        obtain ⟨N, hN⟩ := ih _ _ ⟨0, 500⟩ hinv' (by linarith)
        refine ⟨N + 1, ?_⟩
        simp only [List.replicate_succ, World.run]
        rw [fallAt_step_floor x y l a hx0 hx1 hp, Option.some_bind]
        exact hN
      · push_neg at he
        refine ⟨2, ?_⟩
        simp only [List.replicate, World.run]
        rw [fallAt_step_floor x y l a hx0 hx1 hp, Option.some_bind,
          fallAt_step_floor x 1000 (2000 - y) _ hx0 hx1 (by linarith), Option.some_bind]
        norm_num

/-- The free fall from rest at any height inside the boundary ends at rest
on the floor. -/
theorem fall_settles (x h : ℚ) (a : Vec2 ℚ) (hx0 : 0 ≤ x) (hx1 : x ≤ 1000)
    (hh0 : 0 ≤ h) (hh1 : h ≤ 1000) :
    ∃ N, ∀ n, N ≤ n →
      (fallAt x h h a).run dt ratSqrt (List.replicate n Input.gravity)
        = some (fallAt x 1000 1000 ⟨0, 500⟩) := by
  have hinv : fallInv h h := by
    refine ⟨hh0, hh1, ?_, Or.inl (le_refl _)⟩
    unfold fallEnergy
    nlinarith
  obtain ⟨T, hT⟩ := exists_nat_gt (fallPotential h h)
  obtain ⟨N, hN⟩ := fall_reaches_rest x hx0 hx1 T h h a hinv hT
  refine ⟨N, fun n hn => ?_⟩
  obtain ⟨k, rfl⟩ : ∃ k, n = N + k := ⟨n - N, by omega⟩
  rw [List.replicate_add, World.run_append, hN, Option.some_bind]
  exact fall_rest x hx0 hx1 k

theorem Mass.checkBounds_x_inside (bound : Bound F) (e : F) (m : Mass F)
    (hx : 0 ≤ bound.size.x) :
    bound.pos.x ≤ (m.checkBounds bound e).pos.x ∧
    (m.checkBounds bound e).pos.x ≤ bound.pos.x + bound.size.x := by
  simp only [Mass.checkBounds, Mass.changeVel]
  split_ifs <;> simp_all

theorem Mass.checkBounds_of_x_inside (bound : Bound F) (e : F) (m : Mass F)
    (hy : 0 ≤ bound.size.y) (h1 : bound.pos.x ≤ m.pos.x)
    (h2 : m.pos.x ≤ bound.pos.x + bound.size.x) :
    bound.contains (m.checkBounds bound e).pos := by
  simp only [Bound.contains, Mass.checkBounds, Mass.changeVel]
  split_ifs <;> simp_all
  all_goals (try constructor) <;> linarith

theorem Mass.checkBounds_twice_inside (bound : Bound F) (e : F) (m : Mass F)
    (hx : 0 ≤ bound.size.x) (hy : 0 ≤ bound.size.y) :
    bound.contains ((m.checkBounds bound e).checkBounds bound e).pos :=
  Mass.checkBounds_of_x_inside bound e _ hy (Mass.checkBounds_x_inside bound e m hx).1
    (Mass.checkBounds_x_inside bound e m hx).2

theorem dist_eq_len_sub (sqrt : F → F) (p q : Vec2 F) : dist sqrt p q = len sqrt (p - q) := by
  simp only [dist, len, Vec2.sub_x, Vec2.sub_y]
  congr 1; ring

theorem World.doMouseInteraction_eq (sqrt : F → F) (mousePos moveV : Vec2 F) (radius : F)
    (w : World F) :
    w.doMouseInteraction sqrt mousePos moveV radius
      = w.forMasses (Mass.doMouseInteraction sqrt mousePos moveV radius) := rfl

omit [LinearOrderedField F] in
theorem Mass.sameButAcc_self (m : Mass F) : m.sameButAcc m := ⟨rfl, rfl, rfl, rfl⟩

theorem sameButAcc_map_reset (l1 l2 : List (Mass F)) (h : List.Forall₂ Mass.sameButAcc l1 l2) :
    l1.map (fun m => ({ m with acc := ⟨0, 0⟩ } : Mass F))
      = l2.map (fun m => ({ m with acc := ⟨0, 0⟩ } : Mass F)) := by
  induction h with
  | nil => rfl
  | cons hab _ ih =>
    obtain ⟨h1, h2, h3, h4⟩ := hab
    simp only [List.map_cons, ih, h1, h2, h3, h4]

theorem World.resetMassAcc_congr (w1 w2 : World F) (h : w1.sameButAcc w2) :
    w1.resetMassAcc = w2.resetMassAcc := by
  obtain ⟨hm, hb, he⟩ := h
  cases w1 with
  | mk ms1 b1 e1 =>
    cases w2 with
    | mk ms2 b2 e2 =>
      simp only at hm hb he
      subst hb he
      simp only [World.resetMassAcc, World.forMasses, World.mk.injEq, and_true]
      induction hm with
      | nil => rfl
      | cons hab _ ih =>
        obtain ⟨h1, h2⟩ := hab
        simp only [List.map_cons, ih, sameButAcc_map_reset _ _ h1, h2]

theorem World.update_congr [FloorRing F] (dt : F) (sqrt : F → F) (inp : Input F) (w1 w2 : World F)
    (h : w1.sameButAcc w2) : w1.update dt sqrt inp = w2.update dt sqrt inp := by
  simp only [World.update, World.resetMassAcc_congr w1 w2 h]

theorem World.forcesAndMove_congr (dt : F) (sqrt : F → F) (inp : Input F) (w1 w2 : World F)
    (h : w1.sameButAcc w2) : w1.forcesAndMove dt sqrt inp = w2.forcesAndMove dt sqrt inp := by
  simp only [World.forcesAndMove, World.resetMassAcc_congr w1 w2 h]

theorem World.update_eq_forcesAndMove [FloorRing F] (dt : F) (sqrt : F → F) (inp : Input F) (w : World F) :
    w.update dt sqrt inp = (w.forcesAndMove dt sqrt inp).bind fun w =>
      (World.relaxN dt sqrt 3
        (if inp.rightDown then
          { w with meshes := w.meshes ++ [⟨[Mass.new dt inp.mousePos 25 ⟨0, 0⟩ 1], []⟩] }
        else w)).map fun w =>
      if inp.rightDown then { w with meshes := w.meshes.dropLast } else w := by
  simp only [World.update, World.forcesAndMove]
  cases (w.resetMassAcc.calculateSpringAcc sqrt) with
  | none => rfl
  | some w1 =>
    simp only [Option.some_bind]
    split_ifs <;> rfl

omit [LinearOrderedField F] in
theorem sameButAcc_map (f g : Mass F → Mass F) (hfg : ∀ a b, a.sameButAcc b → (f a).sameButAcc (g b))
    (l1 l2 : List (Mass F)) (h : List.Forall₂ Mass.sameButAcc l1 l2) :
    List.Forall₂ Mass.sameButAcc (l1.map f) (l2.map g) := by
  induction h with
  | nil => exact List.Forall₂.nil
  | cons hab _ ih => exact List.Forall₂.cons (hfg _ _ hab) ih

omit [LinearOrderedField F] in
theorem World.forMasses_sameButAcc (f g : Mass F → Mass F)
    (hfg : ∀ a b, a.sameButAcc b → (f a).sameButAcc (g b)) (w1 w2 : World F)
    (h : w1.sameButAcc w2) : (w1.forMasses f).sameButAcc (w2.forMasses g) := by
  obtain ⟨hm, hb, he⟩ := h
  refine ⟨?_, hb, he⟩
  simp only [World.forMasses]
  generalize w1.meshes = l1 at hm
  generalize w2.meshes = l2 at hm
  induction hm with
  | nil => exact List.Forall₂.nil
  | cons hab _ ih =>
    exact List.Forall₂.cons ⟨sameButAcc_map f g hfg _ _ hab.1, hab.2⟩ ih

omit [LinearOrderedField F] in
theorem World.sameButAcc_refl (w : World F) : w.sameButAcc w := by
  refine ⟨?_, rfl, rfl⟩
  apply List.forall₂_same.mpr
  intro s _
  exact ⟨List.forall₂_same.mpr (fun m _ => Mass.sameButAcc_self m), rfl⟩

theorem Mass.sameButAcc_checkBounds (bound : Bound F) (e : F) (a b : Mass F)
    (h : a.sameButAcc b) : (a.checkBounds bound e).sameButAcc (b.checkBounds bound e) := by
  obtain ⟨h1, h2, h3, h4⟩ := h
  simp only [Mass.checkBounds, Mass.changeVel, h3, h4]
  split_ifs <;> simp_all [Mass.sameButAcc]

theorem World.checkBounds_sameButAcc (w1 w2 : World F) (h : w1.sameButAcc w2) :
    w1.checkBounds.sameButAcc w2.checkBounds := by
  have hb := h.2.1
  have he := h.2.2
  simp only [World.checkBounds, hb, he]
  exact World.forMasses_sameButAcc _ _ (Mass.sameButAcc_checkBounds _ _) w1 w2 h

theorem forall₂_getElem? {α β : Type} {R : α → β → Prop} {l1 : List α} {l2 : List β}
    (h : List.Forall₂ R l1 l2) (i : Nat) : Option.Rel R l1[i]? l2[i]? := by
  induction h generalizing i with
  | nil => simp only [List.getElem?_nil]; exact Option.Rel.none
  | cons hab _ ih =>
    cases i with
    | zero => simp only [List.getElem?_cons_zero]; exact Option.Rel.some hab
    | succ i => simp only [List.getElem?_cons_succ]; exact ih i

theorem forall₂_modify {α β : Type} {R : α → β → Prop} {l1 : List α} {l2 : List β}
    (f : α → α) (g : β → β) (hfg : ∀ a b, R a b → R (f a) (g b))
    (h : List.Forall₂ R l1 l2) (i : Nat) :
    List.Forall₂ R (List.modify f i l1) (List.modify g i l2) := by
  induction h generalizing i with
  | nil => simp only [List.modify_nil]; exact List.Forall₂.nil
  | cons hab hrest ih =>
    cases i with
    | zero => simp only [List.modify_zero_cons]; exact List.Forall₂.cons (hfg _ _ hab) hrest
    | succ i => simp only [List.modify_succ_cons]; exact List.Forall₂.cons hab (ih i)

theorem collidePair_congr [FloorRing F] (dt : F) (sqrt : F → F) (ms1 ms2 : List (Mass F))
    (h : List.Forall₂ Mass.sameButAcc ms1 ms2) (p : Nat × Nat) :
    Option.Rel (List.Forall₂ Mass.sameButAcc) (collidePair dt sqrt ms1 p)
      (collidePair dt sqrt ms2 p) := by
  have hi := forall₂_getElem? h p.2
  have hx := forall₂_getElem? h p.1
  simp only [collidePair]
  split_ifs with hne
  · generalize ms1[p.2]? = a1 at hi ⊢
    generalize ms2[p.2]? = a2 at hi ⊢
    generalize ms1[p.1]? = b1 at hx ⊢
    generalize ms2[p.1]? = b2 at hx ⊢
    cases hi with
    | none => exact Option.Rel.none
    | some hab =>
      cases hx with
      | none => exact Option.Rel.none
      | some hcd =>
        obtain ⟨-, hr1, hp1, -⟩ := hab
        obtain ⟨-, hr2, hp2, -⟩ := hcd
        simp only [hr1, hp1, hr2, hp2]
        split_ifs
        · exact Option.Rel.some h
        · exact Option.Rel.none
        · refine Option.Rel.some ?_
          unfold addPos subPos addAcc subAcc
          refine forall₂_modify _ _ ?_ (forall₂_modify _ _ ?_ (forall₂_modify _ _ ?_
            (forall₂_modify _ _ ?_ h _) _) _) _
          all_goals
            rintro a b ⟨k1, k2, k3, k4⟩
            exact ⟨k1, k2, by simp only [k3], k4⟩
        · exact Option.Rel.some h
  · exact Option.Rel.some h

theorem foldlM_collidePair_congr [FloorRing F] (dt : F) (sqrt : F → F) (ps : List (Nat × Nat))
    (ms1 ms2 : List (Mass F)) (h : List.Forall₂ Mass.sameButAcc ms1 ms2) :
    Option.Rel (List.Forall₂ Mass.sameButAcc) (ps.foldlM (collidePair dt sqrt) ms1)
      (ps.foldlM (collidePair dt sqrt) ms2) := by
  induction ps generalizing ms1 ms2 with
  | nil => exact Option.Rel.some h
  | cons p rest ih =>
    simp only [List.foldlM_cons]
    have hp := collidePair_congr dt sqrt ms1 ms2 h p
    generalize collidePair dt sqrt ms1 p = r1 at hp ⊢
    generalize collidePair dt sqrt ms2 p = r2 at hp ⊢
    cases hp with
    | none => exact Option.Rel.none
    | some hab => exact ih _ _ hab

omit [LinearOrderedField F] in
theorem setMasses_congr (l1 l2 : List (SpringMassMesh F))
    (hl : List.Forall₂ SpringMassMesh.sameButAcc l1 l2) (ms1 ms2 : List (Mass F))
    (h : List.Forall₂ Mass.sameButAcc ms1 ms2) :
    List.Forall₂ SpringMassMesh.sameButAcc (setMasses l1 ms1) (setMasses l2 ms2) := by
  induction hl generalizing ms1 ms2 with
  | nil => exact List.Forall₂.nil
  | cons hab _ ih =>
    simp only [setMasses]
    have hlen := hab.1.length_eq
    refine List.Forall₂.cons ⟨?_, hab.2⟩ (ih _ _ ?_)
    · rw [hlen]; exact List.forall₂_take _ h
    · rw [hlen]; exact List.forall₂_drop _ h

omit [LinearOrderedField F] in
theorem World.allMasses_sameButAcc (w1 w2 : World F) (h : w1.sameButAcc w2) :
    List.Forall₂ Mass.sameButAcc w1.allMasses w2.allMasses := by
  obtain ⟨hm, -, -⟩ := h
  simp only [World.allMasses]
  generalize w1.meshes = l1 at hm
  generalize w2.meshes = l2 at hm
  induction hm with
  | nil => exact List.Forall₂.nil
  | cons hab _ ih =>
    simp only [List.map_cons, List.flatten_cons]
    exact List.rel_append hab.1 ih

theorem World.checkExternalCollision_congr [FloorRing F] (dt : F) (sqrt : F → F) (w1 w2 : World F)
    (h : w1.sameButAcc w2) :
    Option.Rel World.sameButAcc (w1.checkExternalCollision dt sqrt)
      (w2.checkExternalCollision dt sqrt) := by
  have hall := World.allMasses_sameButAcc w1 w2 h
  simp only [World.checkExternalCollision, hall.length_eq]
  have hf := foldlM_collidePair_congr dt sqrt (collisionPairs w2.allMasses.length) _ _ hall
  generalize List.foldlM (collidePair dt sqrt) w1.allMasses
    (collisionPairs w2.allMasses.length) = r1 at hf ⊢
  generalize List.foldlM (collidePair dt sqrt) w2.allMasses
    (collisionPairs w2.allMasses.length) = r2 at hf ⊢
  cases hf with
  | none => exact Option.Rel.none
  | some hab =>
    exact Option.Rel.some ⟨setMasses_congr _ _ h.1 _ _ hab, h.2.1, h.2.2⟩

theorem World.relax_congr [FloorRing F] (dt : F) (sqrt : F → F) (w1 w2 : World F)
    (h : w1.sameButAcc w2) :
    Option.Rel World.sameButAcc (w1.relax dt sqrt) (w2.relax dt sqrt) := by
  have hc := World.checkExternalCollision_congr dt sqrt w1 w2 h
  simp only [World.relax]
  generalize w1.checkExternalCollision dt sqrt = r1 at hc ⊢
  generalize w2.checkExternalCollision dt sqrt = r2 at hc ⊢
  cases hc with
  | none => exact Option.Rel.none
  | some hab => exact Option.Rel.some (World.checkBounds_sameButAcc _ _ hab)

theorem World.relaxN_congr [FloorRing F] (dt : F) (sqrt : F → F) (n : Nat) (w1 w2 : World F)
    (h : w1.sameButAcc w2) :
    Option.Rel World.sameButAcc (w1.relaxN dt sqrt n) (w2.relaxN dt sqrt n) := by
  induction n generalizing w1 w2 with
  | zero => exact Option.Rel.some h
  | succ n ih =>
    have hc := World.relax_congr dt sqrt w1 w2 h
    simp only [World.relaxN]
    generalize w1.relax dt sqrt = r1 at hc ⊢
    generalize w2.relax dt sqrt = r2 at hc ⊢
    cases hc with
    | none => exact Option.Rel.none
    | some hab => exact ih _ _ hab

/-- After any number of further relaxation rounds the next accumulation and
move yields the same world from two worlds that differ only in `acc`. -/
theorem World.relaxN_forcesAndMove_congr [FloorRing F] (dt : F) (sqrt : F → F) (n : Nat) (inp : Input F)
    (w1 w2 : World F) (h : w1.sameButAcc w2) :
    (w1.relaxN dt sqrt n).bind (World.forcesAndMove dt sqrt inp)
      = (w2.relaxN dt sqrt n).bind (World.forcesAndMove dt sqrt inp) := by
  have hc := World.relaxN_congr dt sqrt n w1 w2 h
  generalize w1.relaxN dt sqrt n = r1 at hc ⊢
  generalize w2.relaxN dt sqrt n = r2 at hc ⊢
  cases hc with
  | none => rfl
  | some hab => exact World.forcesAndMove_congr dt sqrt inp _ _ hab

omit [LinearOrderedField F] in
theorem World.sameButAcc_forMasses_acc (f : Mass F → Mass F)
    (hf : ∀ m : Mass F, m.sameButAcc (f m)) (w : World F) : w.sameButAcc (w.forMasses f) := by
  have h := World.forMasses_sameButAcc id f (fun a b hab =>
    ⟨hab.1.trans (hf b).1, hab.2.1.trans (hf b).2.1, hab.2.2.1.trans (hf b).2.2.1,
      hab.2.2.2.trans (hf b).2.2.2⟩) w w (World.sameButAcc_refl w)
  have hid : w.forMasses id = w := World.forMasses_eq_self id w (fun _ _ => rfl)
  rw [hid] at h
  exact h

omit [LinearOrderedField F] in
theorem World.positions_sameButAcc (w1 w2 : World F) (h : w1.sameButAcc w2) :
    w1.positions = w2.positions := by
  have hall := World.allMasses_sameButAcc w1 w2 h
  simp only [World.positions]
  generalize w1.allMasses = l1 at hall
  generalize w2.allMasses = l2 at hall
  induction hall with
  | nil => rfl
  | cons hab _ ih => simp only [List.map_cons, ih, hab.2.2.1, hab.2.2.2]

/-- The result of `checkExternalCollision` on two overlapping particles at
distinct positions. -/
theorem World.checkExternalCollision_overlap [FloorRing F] (dt : F) (sqrt : F → F) (w : World F)
    (a b : Mass F) (d : F) (hw : w.allMasses = [a, b])
    (hd : sqrt (lenSqr (b.pos - a.pos)) = d) (hdd : d * d = lenSqr (b.pos - a.pos))
    (hd0 : 0 < d) (hlt : d < a.r + b.r) :
    w.checkExternalCollision dt sqrt = some { w with meshes := (setMasses w.meshes
      [⟨a.mass, a.r, a.pos - (b.pos - a.pos) / d * intAbs (d - (b.r + a.r)) / (2 : F),
          a.lastPos,
          a.acc - (b.pos - a.pos) / d * intAbs (d - (b.r + a.r)) * dt * (100000 : F)⟩,
       ⟨b.mass, b.r, b.pos + (b.pos - a.pos) / d * intAbs (d - (b.r + a.r)) / (2 : F),
          b.lastPos,
          b.acc + (b.pos - a.pos) / d * intAbs (d - (b.r + a.r)) * dt * (100000 : F)⟩]) } := by
  simp only [World.checkExternalCollision, hw]
  rw [show collisionPairs ([a, b] : List (Mass F)).length = [(0, 1)] from rfl]
  simp only [List.foldlM_cons, List.foldlM_nil, collidePair_overlap dt sqrt a b d hd hdd hd0 hlt]
  rfl

theorem mem_collisionPairs (n : Nat) (p : Nat × Nat) :
    p ∈ collisionPairs n ↔ p.1 < p.2 ∧ p.2 < n := by
  obtain ⟨x, i⟩ := p
  simp only [collisionPairs, List.mem_flatMap, List.mem_range, List.mem_map, List.mem_range'_1,
    Prod.mk.injEq]
  constructor
  · rintro ⟨a, ha, b, ⟨hb1, hb2⟩, rfl, rfl⟩
    omega
  · rintro ⟨h1, h2⟩
    exact ⟨x, by omega, i, ⟨by omega, by omega⟩, rfl, rfl⟩

theorem nodup_collisionPairs (n : Nat) : (collisionPairs n).Nodup := by
  unfold collisionPairs
  rw [List.nodup_flatMap]
  constructor
  · intro x _
    exact (List.nodup_range' _ _).map (fun a b h => (Prod.mk.inj h).2)
  · refine (List.nodup_range n).pairwise_of_forall_ne ?_
    intro a _ b _ hab
    simp only [Function.onFun]
    rw [List.disjoint_left]
    intro p hp1 hp2
    simp only [List.mem_map] at hp1 hp2
    obtain ⟨i, _, rfl⟩ := hp1
    obtain ⟨j, _, h⟩ := hp2
    exact hab (Prod.mk.inj h).1.symm

theorem count_pair_eq_one (l : List (Nat × Nat)) (a : Nat × Nat) (hn : l.Nodup) (ha : a ∈ l) :
    l.count a = 1 := by
  induction l with
  | nil => simp at ha
  | cons b t ih =>
    rw [List.nodup_cons] at hn
    rw [List.count_cons]
    rcases List.mem_cons.mp ha with h | h
    · subst h
      rw [List.count_eq_zero.mpr hn.1]
      simp
    · have hne : ¬ b = a := fun e => hn.1 (e ▸ h)
      rw [ih hn.2 h]
      simp [hne]

theorem collidePair_far [FloorRing F] (dt : F) (sqrt : F → F) (ms : List (Mass F)) (x i : Nat)
    (mi mx : Mass F) (hi : ms[i]? = some mi) (hx : ms[x]? = some mx)
    (hfar : (mi.r + mx.r) * (mi.r + mx.r) < lenSqr (mi.pos - mx.pos)) :
    collidePair dt sqrt ms (x, i) = some ms := by
  have h : lenSqr (mi.pos - mx.pos) - (mi.r + mx.r) * (mi.r + mx.r) > 0 := sub_pos.mpr hfar
  simp only [collidePair, hi, hx, if_pos h]
  split_ifs <;> rfl

theorem sum_map_modify {α : Type} (g : α → F) (f : α → α) (l : List α) (n : Nat) (a : α)
    (h : l[n]? = some a) :
    ((List.modify f n l).map g).sum = (l.map g).sum + (g (f a) - g a) := by
  induction l generalizing n with
  | nil => simp at h
  | cons b t ih =>
    cases n with
    | zero =>
      simp only [List.getElem?_cons_zero, Option.some.injEq] at h
      subst h
      simp only [List.modify_zero_cons, List.map_cons, List.sum_cons]
      ring
    | succ n =>
      simp only [List.getElem?_cons_succ] at h
      simp only [List.modify_succ_cons, List.map_cons, List.sum_cons, ih n h]
      ring

theorem map_modify_of_fixed {α β : Type} (g : α → β) (f : α → α) (hf : ∀ a, g (f a) = g a)
    (l : List α) (n : Nat) : (List.modify f n l).map g = l.map g := by
  induction l generalizing n with
  | nil => simp
  | cons b t ih =>
    cases n with
    | zero => simp only [List.modify_zero_cons, List.map_cons, hf]
    | succ n => simp only [List.modify_succ_cons, List.map_cons, ih]

theorem sumPos_addPos (i : Nat) (v : Vec2 F) (ms : List (Mass F)) (mi : Mass F)
    (h : ms[i]? = some mi) : sumPos (addPos i v ms) = sumPos ms + v := by
  unfold sumPos addPos
  rw [sum_map_modify _ _ ms i mi h, sum_map_modify _ _ ms i mi h]
  ext <;> simp

theorem sumPos_subPos (i : Nat) (v : Vec2 F) (ms : List (Mass F)) (mi : Mass F)
    (h : ms[i]? = some mi) : sumPos (subPos i v ms) = sumPos ms - v := by
  unfold sumPos subPos
  rw [sum_map_modify _ _ ms i mi h, sum_map_modify _ _ ms i mi h]
  ext <;> simp <;> ring

theorem sumAcc_addAcc (i : Nat) (v : Vec2 F) (ms : List (Mass F)) (mi : Mass F)
    (h : ms[i]? = some mi) : sumAcc (addAcc i v ms) = sumAcc ms + v := by
  unfold sumAcc addAcc
  rw [sum_map_modify _ _ ms i mi h, sum_map_modify _ _ ms i mi h]
  ext <;> simp

theorem sumAcc_subAcc (i : Nat) (v : Vec2 F) (ms : List (Mass F)) (mi : Mass F)
    (h : ms[i]? = some mi) : sumAcc (subAcc i v ms) = sumAcc ms - v := by
  unfold sumAcc subAcc
  rw [sum_map_modify _ _ ms i mi h, sum_map_modify _ _ ms i mi h]
  ext <;> simp <;> ring

theorem sumPos_addAcc (i : Nat) (v : Vec2 F) (ms : List (Mass F)) :
    sumPos (addAcc i v ms) = sumPos ms := by
  unfold sumPos addAcc
  congr 1 <;> congr 1 <;> apply map_modify_of_fixed <;> intro a <;> rfl

theorem sumPos_subAcc (i : Nat) (v : Vec2 F) (ms : List (Mass F)) :
    sumPos (subAcc i v ms) = sumPos ms := by
  unfold sumPos subAcc
  congr 1 <;> congr 1 <;> apply map_modify_of_fixed <;> intro a <;> rfl

theorem sumAcc_addPos (i : Nat) (v : Vec2 F) (ms : List (Mass F)) :
    sumAcc (addPos i v ms) = sumAcc ms := by
  unfold sumAcc addPos
  congr 1 <;> congr 1 <;> apply map_modify_of_fixed <;> intro a <;> rfl

theorem sumAcc_subPos (i : Nat) (v : Vec2 F) (ms : List (Mass F)) :
    sumAcc (subPos i v ms) = sumAcc ms := by
  unfold sumAcc subPos
  congr 1 <;> congr 1 <;> apply map_modify_of_fixed <;> intro a <;> rfl

theorem pairCorrection_sums (ms : List (Mass F)) (x i : Nat) (mi mx : Mass F)
    (hi : ms[i]? = some mi) (hx : ms[x]? = some mx) (v a : Vec2 F) :
    sumPos (subAcc x a (addAcc i a (subPos x v (addPos i v ms)))) = sumPos ms ∧
    sumAcc (subAcc x a (addAcc i a (subPos x v (addPos i v ms)))) = sumAcc ms ∧
    (subAcc x a (addAcc i a (subPos x v (addPos i v ms)))).map Mass.fixedPart
      = ms.map Mass.fixedPart := by
  have hx1 : ∃ m, (addPos i v ms)[x]? = some m := by
    rw [getElem?_addPos, hx]
    exact ⟨_, rfl⟩
  have hi2 : ∃ m, (subPos x v (addPos i v ms))[i]? = some m := by
    rw [getElem?_subPos, getElem?_addPos, hi]
    exact ⟨_, rfl⟩
  have hx2 : ∃ m, (addAcc i a (subPos x v (addPos i v ms)))[x]? = some m := by
    rw [getElem?_addAcc, getElem?_subPos, getElem?_addPos, hx]
    exact ⟨_, rfl⟩
  obtain ⟨m1, hm1⟩ := hx1
  obtain ⟨m2, hm2⟩ := hi2
  obtain ⟨m3, hm3⟩ := hx2
  refine ⟨?_, ?_, ?_⟩
  · rw [sumPos_subAcc, sumPos_addAcc, sumPos_subPos _ _ _ m1 hm1, sumPos_addPos _ _ _ mi hi]
    ext <;> simp
  · rw [sumAcc_subAcc _ _ _ m3 hm3, sumAcc_addAcc _ _ _ m2 hm2, sumAcc_subPos, sumAcc_addPos]
    ext <;> simp
  · have hfix : ∀ (f : Mass F → Mass F) (n : Nat) (l : List (Mass F)),
        (∀ b, (f b).fixedPart = b.fixedPart) →
        (List.modify f n l).map Mass.fixedPart = l.map Mass.fixedPart :=
      fun f n l hf => map_modify_of_fixed _ f hf l n
    simp only [subAcc, addAcc, subPos, addPos]
    refine (hfix _ _ _ ?_).trans ((hfix _ _ _ ?_).trans ((hfix _ _ _ ?_).trans (hfix _ _ _ ?_)))
      <;> intro b <;> rfl

theorem collidePair_sums [FloorRing F] (dt : F) (sqrt : F → F) (ms ms' : List (Mass F)) (p : Nat × Nat)
    (h : collidePair dt sqrt ms p = some ms') :
    sumPos ms' = sumPos ms ∧ sumAcc ms' = sumAcc ms ∧
    ms'.map Mass.fixedPart = ms.map Mass.fixedPart := by
  obtain ⟨x, i⟩ := p
  simp only [collidePair] at h
  split_ifs at h with hne
  · rcases hi : ms[i]? with _ | mi
    · simp [hi] at h
    rcases hx : ms[x]? with _ | mx
    · simp [hi, hx] at h
    simp only [hi, hx] at h
    split_ifs at h with h1 h2 h3
    · cases h; exact ⟨rfl, rfl, rfl⟩
    · cases h
      exact pairCorrection_sums ms x i mi mx hi hx _ _
    · cases h; exact ⟨rfl, rfl, rfl⟩
  · cases h; exact ⟨rfl, rfl, rfl⟩

theorem foldlM_collidePair_sums [FloorRing F] (dt : F) (sqrt : F → F) (ps : List (Nat × Nat))
    (ms ms' : List (Mass F)) (h : ps.foldlM (collidePair dt sqrt) ms = some ms') :
    sumPos ms' = sumPos ms ∧ sumAcc ms' = sumAcc ms ∧
    ms'.map Mass.fixedPart = ms.map Mass.fixedPart := by
  induction ps generalizing ms with
  | nil =>
    simp only [List.foldlM_nil] at h
    cases h
    exact ⟨rfl, rfl, rfl⟩
  | cons p rest ih =>
    simp only [List.foldlM_cons] at h
    rcases hp : collidePair dt sqrt ms p with _ | ms1
    · simp [hp] at h
    · simp only [hp, Option.some_bind, Option.bind_eq_bind] at h
      obtain ⟨a1, a2, a3⟩ := collidePair_sums dt sqrt ms ms1 p hp
      obtain ⟨b1, b2, b3⟩ := ih ms1 h
      exact ⟨b1.trans a1, b2.trans a2, b3.trans a3⟩

theorem World.checkExternalCollision_allMasses [FloorRing F] (dt : F) (sqrt : F → F) (w w' : World F)
    (h : w.checkExternalCollision dt sqrt = some w') :
    (collisionPairs w.allMasses.length).foldlM (collidePair dt sqrt) w.allMasses
      = some w'.allMasses := by
  simp only [World.checkExternalCollision] at h
  rcases hf : (collisionPairs w.allMasses.length).foldlM (collidePair dt sqrt) w.allMasses
    with _ | ms'
  · simp [hf] at h
  · simp only [hf, Option.map_some', Option.some.injEq] at h
    subst h
    have hl := congrArg List.length (foldlM_collidePair_sums dt sqrt _ _ _ hf).2.2
    simp only [List.length_map] at hl
    simp only [World.allMasses]
    rw [allMasses_setMasses _ _ hl]

theorem mem_intRange (lo hi x : Int) : x ∈ intRange lo hi ↔ lo ≤ x ∧ x < hi := by
  simp only [intRange, List.mem_map, List.mem_range]
  constructor
  · rintro ⟨k, hk, rfl⟩
    omega
  · rintro ⟨h1, h2⟩
    exact ⟨(x - lo).toNat, by omega, by omega⟩

theorem length_intRange (lo hi : Int) : (intRange lo hi).length = (hi - lo).toNat := by
  simp only [intRange, List.length_map, List.length_range]

theorem nodup_intRange (lo hi : Int) : (intRange lo hi).Nodup := by
  unfold intRange
  refine (List.nodup_range _).map ?_
  intro a b h
  simp only at h
  omega

theorem floor_half_sub_floor_neg_half [FloorRing F] (w : Int) :
    ⌊(w : F) / 2⌋ - ⌊-(w : F) / 2⌋ = w := by
  obtain ⟨k, hk | hk⟩ := Int.even_or_odd' w
  · have h1 : ⌊(w : F) / 2⌋ = k := by
      rw [Int.floor_eq_iff, hk]
      push_cast
      constructor <;> linarith
    have h2 : ⌊-(w : F) / 2⌋ = -k := by
      rw [Int.floor_eq_iff, hk]
      push_cast
      constructor <;> linarith
    rw [h1, h2, hk]
    ring
  · have h1 : ⌊(w : F) / 2⌋ = k := by
      rw [Int.floor_eq_iff, hk]
      push_cast
      constructor <;> linarith
    have h2 : ⌊-(w : F) / 2⌋ = -(k + 1) := by
      rw [Int.floor_eq_iff, hk]
      push_cast
      constructor <;> linarith
    rw [h1, h2, hk]
    ring

theorem length_flatMap_map_const {α β γ : Type} (l1 : List α) (l2 : List β) (f : α → β → γ) :
    (l1.flatMap (fun a => l2.map (f a))).length = l1.length * l2.length := by
  induction l1 with
  | nil => simp
  | cons a t ih =>
    simp only [List.flatMap_cons, List.length_append, List.length_map, ih, List.length_cons]
    ring

/-- Every result of `checkExternalCollision` has the same sum of positions
and the same sum of `acc` values as the world it started from, and every
particle keeps its `lastPos`, `mass` and `r`; the same holds for the
correction of each single pair. -/
theorem World.checkExternalCollision_sums [FloorRing F] (dt : F) (sqrt : F → F) (w w' : World F)
    (h : w.checkExternalCollision dt sqrt = some w') :
    sumPos w'.allMasses = sumPos w.allMasses ∧
    sumAcc w'.allMasses = sumAcc w.allMasses ∧
    w'.allMasses.map (fun m => m.lastPos) = w.allMasses.map (fun m => m.lastPos) ∧
    w'.allMasses.map (fun m => m.mass) = w.allMasses.map (fun m => m.mass) ∧
    w'.allMasses.map (fun m => m.r) = w.allMasses.map (fun m => m.r) ∧
    (∀ (ms ms' : List (Mass F)) (p : Nat × Nat), collidePair dt sqrt ms p = some ms' →
      sumPos ms' = sumPos ms ∧ sumAcc ms' = sumAcc ms) := by
  obtain ⟨h1, h2, h3⟩ := foldlM_collidePair_sums dt sqrt _ _ _
    (World.checkExternalCollision_allMasses dt sqrt w w' h)
  refine ⟨h1, h2, ?_, ?_, ?_, fun ms ms' p hp => ?_⟩
  · have := congrArg (List.map (fun t : Vec2 F × F × F => t.1)) h3
    simpa only [List.map_map, Function.comp_def, Mass.fixedPart] using this
  · have := congrArg (List.map (fun t : Vec2 F × F × F => t.2.1)) h3
    simpa only [List.map_map, Function.comp_def, Mass.fixedPart] using this
  · have := congrArg (List.map (fun t : Vec2 F × F × F => t.2.2)) h3
    simpa only [List.map_map, Function.comp_def, Mass.fixedPart] using this
  · obtain ⟨a1, a2, -⟩ := collidePair_sums dt sqrt ms ms' p hp
    exact ⟨a1, a2⟩

theorem dist_eq_sqrt_lenSqr (sqrt : F → F) (v1 v2 : Vec2 F) :
    dist sqrt v1 v2 = sqrt (lenSqr (v2 - v1)) := rfl

/-- The particles left by `checkExternalCollision` on two overlapping particles
at distinct positions. -/
theorem World.checkExternalCollision_overlap_allMasses [FloorRing F] (dt : F) (sqrt : F → F)
    (w : World F) (a b : Mass F) (d : F) (hw : w.allMasses = [a, b])
    (hd : sqrt (lenSqr (b.pos - a.pos)) = d) (hdd : d * d = lenSqr (b.pos - a.pos))
    (hd0 : 0 < d) (hlt : d < a.r + b.r) :
    ∃ w', w.checkExternalCollision dt sqrt = some w' ∧ w'.allMasses =
      [⟨a.mass, a.r, a.pos - (b.pos - a.pos) / d * intAbs (d - (b.r + a.r)) / (2 : F),
          a.lastPos,
          a.acc - (b.pos - a.pos) / d * intAbs (d - (b.r + a.r)) * dt * (100000 : F)⟩,
       ⟨b.mass, b.r, b.pos + (b.pos - a.pos) / d * intAbs (d - (b.r + a.r)) / (2 : F),
          b.lastPos,
          b.acc + (b.pos - a.pos) / d * intAbs (d - (b.r + a.r)) * dt * (100000 : F)⟩] :=
  ⟨_, World.checkExternalCollision_overlap dt sqrt w a b d hw hd hdd hd0 hlt,
    allMasses_setMasses w.meshes _ (by rw [← World.allMasses, hw]; rfl)⟩

end Lemmas

/-! ## Verified properties -/

section Theorems

variable {F : Type} [LinearOrderedField F]

/-- C1 (as stated, refuted): a particle below the minimum of the boundary on
both axes still has its `y` below the minimum after one `checkBounds`. -/
theorem checkBounds_corner_not_contained :
    ¬ (∀ m ∈ (looseWorld 1 [cornerMass]).checkBounds.allMasses,
        unitBound.pos.x ≤ m.pos.x ∧ m.pos.x ≤ unitBound.pos.x + unitBound.size.x ∧
        unitBound.pos.y ≤ m.pos.y ∧ m.pos.y ≤ unitBound.pos.y + unitBound.size.y) := by
  intro h
  have h1 := h (cornerMass.checkBounds unitBound 1)
    (by rw [World.allMasses_checkBounds]; simp [World.allMasses, looseWorld])
  norm_num [Mass.checkBounds, Mass.changeVel, cornerMass, unitBound] at h1

/-- C1 (amended): for a boundary of non-negative size, one `checkBounds`
maps every particle through `Mass.checkBounds`, after which its `x` lies in
`[bound.pos.x, bound.pos.x + bound.size.x]`, and its `y` lies in
`[bound.pos.y, bound.pos.y + bound.size.y]` unless the particle was outside
on both axes on the same side (both below the minimum or both above the
maximum). -/
theorem World.checkBounds_contains (w : World F)
    (hx : 0 ≤ w.activeBound.size.x) (hy : 0 ≤ w.activeBound.size.y) :
    w.checkBounds.allMasses
      = w.allMasses.map (Mass.checkBounds w.activeBound w.bounceEnergy) ∧
    ∀ m ∈ w.allMasses,
      w.activeBound.pos.x ≤ (m.checkBounds w.activeBound w.bounceEnergy).pos.x ∧
      (m.checkBounds w.activeBound w.bounceEnergy).pos.x
        ≤ w.activeBound.pos.x + w.activeBound.size.x ∧
      (¬ (m.pos.x < w.activeBound.pos.x ∧ m.pos.y < w.activeBound.pos.y) →
       ¬ (m.pos.x > w.activeBound.pos.x + w.activeBound.size.x ∧
          m.pos.y > w.activeBound.pos.y + w.activeBound.size.y) →
        w.activeBound.pos.y ≤ (m.checkBounds w.activeBound w.bounceEnergy).pos.y ∧
        (m.checkBounds w.activeBound w.bounceEnergy).pos.y
          ≤ w.activeBound.pos.y + w.activeBound.size.y) := by
  refine ⟨World.allMasses_checkBounds w, fun m _ => ?_⟩
  simp only [Mass.checkBounds, Mass.changeVel]
  split_ifs <;> simp_all
  all_goals linarith

/-- Witness for C1 (amended): a particle left of the boundary on `x` and
above it on `y` is inside on both axes after one `checkBounds`. -/
theorem World.checkBounds_contains_witness :
    (0 : ℚ) ≤ (looseWorld 1 [mixedCornerMass]).activeBound.size.x ∧
    (0 : ℚ) ≤ (looseWorld 1 [mixedCornerMass]).activeBound.size.y ∧
    ∀ m ∈ (looseWorld 1 [mixedCornerMass]).checkBounds.allMasses,
      0 ≤ m.pos.x ∧ m.pos.x ≤ 100 ∧ 0 ≤ m.pos.y ∧ m.pos.y ≤ 100 := by
  have hx : (0 : ℚ) ≤ (looseWorld 1 [mixedCornerMass]).activeBound.size.x := by
    norm_num [looseWorld, unitBound]
  have hy : (0 : ℚ) ≤ (looseWorld 1 [mixedCornerMass]).activeBound.size.y := by
    norm_num [looseWorld, unitBound]
  have h := World.checkBounds_contains (looseWorld 1 [mixedCornerMass]) hx hy
  refine ⟨hx, hy, fun m hm => ?_⟩
  rw [h.1, List.mem_map] at hm
  obtain ⟨m0, hm0, rfl⟩ := hm
  have h2 := h.2 m0 hm0
  have hm1 : m0 = mixedCornerMass := by simpa [World.allMasses, looseWorld] using hm0
  subst hm1
  have h3 := h2.2.2 (by norm_num [looseWorld, unitBound, mixedCornerMass])
    (by norm_num [looseWorld, unitBound, mixedCornerMass])
  have h4 := h2.1
  have h5 := h2.2.1
  simp only [looseWorld, unitBound] at h3 h4 h5 ⊢
  norm_num at h3 h4 h5
  exact ⟨h4, h5, h3.1, h3.2⟩

/-- C2 (the code at the failing input): two particles of radius 10 with
centres 17.5 apart overlap by 2.5. `checkExternalCollision` passes the
overlap through the integer `abs` of line 342, which gives 2: each particle
moves by 1, not by 1.25, and the centres are 19.5 apart afterwards, not 20.
With centres 19.5 apart (overlap 0.5) the integer `abs` gives 0 and neither
particle moves. Only where the overlap is an integer, as with centres 15
apart (overlap 5), does each particle move by half of it, here 2.5. -/
theorem World.checkExternalCollision_truncates_overlap :
    (fracA.r + fracB.r - dist ratSqrt fracA.pos fracB.pos = 5 / 2 ∧
      ∃ w' a' b', (looseWorld 1 [fracA, fracB]).checkExternalCollision dt ratSqrt = some w' ∧
        w'.allMasses = [a', b'] ∧ a'.pos = ⟨-1, 0⟩ ∧ b'.pos = ⟨37 / 2, 0⟩ ∧
        dist ratSqrt a'.pos b'.pos = 39 / 2) ∧
    (fracA.r + fracC.r - dist ratSqrt fracA.pos fracC.pos = 1 / 2 ∧
      ∃ w' a' b', (looseWorld 1 [fracA, fracC]).checkExternalCollision dt ratSqrt = some w' ∧
        w'.allMasses = [a', b'] ∧ a'.pos = fracA.pos ∧ b'.pos = fracC.pos) ∧
    (headOnA.r + headOnB.r - dist ratSqrt headOnA.pos headOnB.pos = 5 ∧
      ∃ w' a' b', (looseWorld 1 [headOnA, headOnB]).checkExternalCollision dt ratSqrt = some w' ∧
        w'.allMasses = [a', b'] ∧ a'.pos = ⟨-5 / 2, 0⟩ ∧ b'.pos = ⟨35 / 2, 0⟩) := by
  have hddB : (35 / 2 : ℚ) * (35 / 2) = lenSqr (fracB.pos - fracA.pos) := by
    norm_num [lenSqr, fracA, fracB]
  have hdB : ratSqrt (lenSqr (fracB.pos - fracA.pos)) = 35 / 2 := by
    rw [← hddB]; exact ratSqrt_mul_self (35 / 2) (by norm_num)
  have hddC : (39 / 2 : ℚ) * (39 / 2) = lenSqr (fracC.pos - fracA.pos) := by
    norm_num [lenSqr, fracA, fracC]
  have hdC : ratSqrt (lenSqr (fracC.pos - fracA.pos)) = 39 / 2 := by
    rw [← hddC]; exact ratSqrt_mul_self (39 / 2) (by norm_num)
  have hddH : (15 : ℚ) * 15 = lenSqr (headOnB.pos - headOnA.pos) := by
    norm_num [lenSqr, headOnA, headOnB]
  have hdH : ratSqrt (lenSqr (headOnB.pos - headOnA.pos)) = 15 := by
    rw [← hddH]; exact ratSqrt_mul_self 15 (by norm_num)
  have hkH : intAbs ((15 : ℚ) - (headOnB.r + headOnA.r)) = 5 := by
    rw [intAbs_of_nonpos _ (by norm_num [headOnA, headOnB])]
    have : ⌊-((15 : ℚ) - (headOnB.r + headOnA.r))⌋ = 5 := by
      rw [Int.floor_eq_iff]; norm_num [headOnA, headOnB]
    rw [this]; norm_num
  have hkB : intAbs ((35 / 2 : ℚ) - (fracB.r + fracA.r)) = 2 := by
    rw [intAbs_of_nonpos _ (by norm_num [fracA, fracB])]
    have : ⌊-((35 / 2 : ℚ) - (fracB.r + fracA.r))⌋ = 2 := by
      rw [Int.floor_eq_iff]; norm_num [fracA, fracB]
    rw [this]; norm_num
  have hkC : intAbs ((39 / 2 : ℚ) - (fracC.r + fracA.r)) = 0 := by
    rw [intAbs_of_nonpos _ (by norm_num [fracA, fracC])]
    have : ⌊-((39 / 2 : ℚ) - (fracC.r + fracA.r))⌋ = 0 := by
      rw [Int.floor_eq_iff]; norm_num [fracA, fracC]
    rw [this]; norm_num
  obtain ⟨wB, hB, hallB⟩ := World.checkExternalCollision_overlap_allMasses dt ratSqrt
    (looseWorld 1 [fracA, fracB]) fracA fracB (35 / 2) rfl hdB hddB (by norm_num)
    (by norm_num [fracA, fracB])
  obtain ⟨wC, hC, hallC⟩ := World.checkExternalCollision_overlap_allMasses dt ratSqrt
    (looseWorld 1 [fracA, fracC]) fracA fracC (39 / 2) rfl hdC hddC (by norm_num)
    (by norm_num [fracA, fracC])
  obtain ⟨wH, hH, hallH⟩ := World.checkExternalCollision_overlap_allMasses dt ratSqrt
    (looseWorld 1 [headOnA, headOnB]) headOnA headOnB 15 rfl hdH hddH (by norm_num)
    (by norm_num [headOnA, headOnB])
  rw [hkH] at hallH
  have hdistH : dist ratSqrt headOnA.pos headOnB.pos = 15 := by
    rw [dist_eq_sqrt_lenSqr, hdH]
  rw [hkB] at hallB
  rw [hkC] at hallC
  have hdistB : dist ratSqrt fracA.pos fracB.pos = 35 / 2 := by
    rw [dist_eq_sqrt_lenSqr, hdB]
  have hdistC : dist ratSqrt fracA.pos fracC.pos = 39 / 2 := by
    rw [dist_eq_sqrt_lenSqr, hdC]
  have h39 : ratSqrt ((39 / 2 : ℚ) * (39 / 2)) = 39 / 2 :=
    ratSqrt_mul_self (39 / 2) (by norm_num)
  refine ⟨⟨?_, wB, _, _, hB, hallB, ?_, ?_, ?_⟩, ⟨?_, wC, _, _, hC, hallC, ?_, ?_⟩,
    ⟨?_, wH, _, _, hH, hallH, ?_, ?_⟩⟩
  · rw [hdistB]; norm_num [fracA, fracB]
  · ext <;> norm_num [fracA, fracB]
  · ext <;> norm_num [fracA, fracB]
  · rw [dist_eq_sqrt_lenSqr, ← h39]
    congr 1
    norm_num [lenSqr, fracA, fracB]
  · rw [hdistC]; norm_num [fracA, fracC]
  · ext <;> norm_num [fracA, fracC]
  · ext <;> norm_num [fracA, fracC]
  · rw [hdistH]; norm_num [headOnA, headOnB]
  · ext <;> norm_num [headOnA, headOnB]
  · ext <;> norm_num [headOnA, headOnB]

/-- C3: for a spring with two distinct endpoints, positive masses and
positive rest length, `Spring::calculateMassAcc` succeeds; its elastic part
changes `m1.acc` by `force / m1.mass` and `m2.acc` by `-force / m2.mass`, its
damping part by `dampingForce / m1.mass` and `-dampingForce / m2.mass`: the
mass-weighted changes are equal and opposite for each term, and sum to zero
for the whole call. -/
theorem Spring.calculateMassAcc_newton3 (sqrt : F → F) (s : Spring F) (ms : List (Mass F))
    (m1 m2 : Mass F) (h1 : ms[s.m1]? = some m1) (h2 : ms[s.m2]? = some m2)
    (hne : s.m1 ≠ s.m2) (hm1 : 0 < m1.mass) (hm2 : 0 < m2.mass) (hr : 0 < s.restLen) :
    ∃ ms1 ms2 a1 a2 b1 b2,
      s.elastic sqrt ms = some ms1 ∧ s.damping sqrt ms1 = some ms2 ∧
      s.calculateMassAcc sqrt ms = some ms2 ∧
      ms1[s.m1]? = some a1 ∧ ms1[s.m2]? = some a2 ∧
      ms2[s.m1]? = some b1 ∧ ms2[s.m2]? = some b2 ∧
      (a1.acc - m1.acc) * m1.mass = s.force sqrt m1 m2 ∧
      (a2.acc - m2.acc) * m2.mass = -s.force sqrt m1 m2 ∧
      (a1.acc - m1.acc) * m1.mass = -((a2.acc - m2.acc) * m2.mass) ∧
      (b1.acc - a1.acc) * m1.mass = s.dampingForce sqrt m1 m2 ∧
      (b2.acc - a2.acc) * m2.mass = -s.dampingForce sqrt m1 m2 ∧
      (b1.acc - a1.acc) * m1.mass = -((b2.acc - a2.acc) * m2.mass) ∧
      (b1.acc - m1.acc) * m1.mass + (b2.acc - m2.acc) * m2.mass = 0 := by
  obtain ⟨f, hf⟩ : ∃ f, f = s.force sqrt m1 m2 := ⟨_, rfl⟩
  obtain ⟨d, hd⟩ : ∃ d, d = s.dampingForce sqrt m1 m2 := ⟨_, rfl⟩
  have e1 : s.elastic sqrt ms
      = some (subAcc s.m2 (f / m2.mass) (addAcc s.m1 (f / m1.mass) ms)) := by
    simp [Spring.elastic, h1, h2, hr.ne', hm1.ne', hm2.ne', hf]
  generalize hms1 : subAcc s.m2 (f / m2.mass) (addAcc s.m1 (f / m1.mass) ms) = ms1 at e1
  have g1 : ms1[s.m1]? = some { m1 with acc := m1.acc + f / m1.mass } := by
    simp [← hms1, getElem?_addAcc, getElem?_subAcc, h1, hne, hne.symm]
  have g2 : ms1[s.m2]? = some { m2 with acc := m2.acc - f / m2.mass } := by
    simp [← hms1, getElem?_addAcc, getElem?_subAcc, h2, hne, hne.symm]
  have e2 : s.damping sqrt ms1
      = some (subAcc s.m2 (d / m2.mass) (addAcc s.m1 (d / m1.mass) ms1)) := by
    simp only [Spring.damping, g1, g2]
    simp [hm1.ne', hm2.ne', Spring.dampingForce, hd]
  generalize hms2 : subAcc s.m2 (d / m2.mass) (addAcc s.m1 (d / m1.mass) ms1) = ms2 at e2
  have g3 : ms2[s.m1]? = some { m1 with acc := m1.acc + f / m1.mass + d / m1.mass } := by
    simp [← hms2, getElem?_addAcc, getElem?_subAcc, g1, hne, hne.symm]
  have g4 : ms2[s.m2]? = some { m2 with acc := m2.acc - f / m2.mass - d / m2.mass } := by
    simp [← hms2, getElem?_addAcc, getElem?_subAcc, g2, hne, hne.symm]
  have hm1' := hm1.ne'
  have hm2' := hm2.ne'
  rw [← hf, ← hd]
  refine ⟨ms1, ms2, _, _, _, _, e1, e2, ?_, g1, g2, g3, g4, ?_, ?_, ?_, ?_, ?_, ?_, ?_⟩
  · simp [Spring.calculateMassAcc, e1, e2]
  all_goals ext <;> simp <;> field_simp <;> ring

/-- Witness for C3: the spring of rest length 100 between two moving
particles of masses 1 and 2. -/
theorem Spring.calculateMassAcc_newton3_witness :
    (0 < movingA.mass ∧ 0 < movingB.mass ∧ 0 < restSpring.restLen) ∧
    ∃ ms1 ms2 a1 a2 b1 b2,
      restSpring.elastic ratSqrt movingPair = some ms1 ∧
      restSpring.damping ratSqrt ms1 = some ms2 ∧
      restSpring.calculateMassAcc ratSqrt movingPair = some ms2 ∧
      ms1[restSpring.m1]? = some a1 ∧ ms1[restSpring.m2]? = some a2 ∧
      ms2[restSpring.m1]? = some b1 ∧ ms2[restSpring.m2]? = some b2 ∧
      (a1.acc - movingA.acc) * movingA.mass = restSpring.force ratSqrt movingA movingB ∧
      (a2.acc - movingB.acc) * movingB.mass = -restSpring.force ratSqrt movingA movingB ∧
      (a1.acc - movingA.acc) * movingA.mass = -((a2.acc - movingB.acc) * movingB.mass) ∧
      (b1.acc - a1.acc) * movingA.mass = restSpring.dampingForce ratSqrt movingA movingB ∧
      (b2.acc - a2.acc) * movingB.mass = -restSpring.dampingForce ratSqrt movingA movingB ∧
      (b1.acc - a1.acc) * movingA.mass = -((b2.acc - a2.acc) * movingB.mass) ∧
      (b1.acc - movingA.acc) * movingA.mass + (b2.acc - movingB.acc) * movingB.mass = 0 :=
  ⟨⟨by norm_num [movingA], by norm_num [movingB], by norm_num [restSpring]⟩,
   Spring.calculateMassAcc_newton3 ratSqrt restSpring movingPair movingA movingB
    rfl rfl (by decide) (by norm_num [movingA]) (by norm_num [movingB])
    (by norm_num [restSpring])⟩

/-- C4: a world of one mesh of two particles joined by one spring, with
centre distance equal to the positive rest length, zero implicit velocity,
positive masses, both particles inside the boundary and not overlapping,
runs any number `n` of passes of the main loop without external or pointer
force, and both particles keep their `pos` and `lastPos`, whatever the
stiffness, the damping and the time step. -/
theorem World.run_rest [FloorRing F] (dt : F) (sqrt : F → F) (n : Nat) (w : World F) (a b : Mass F)
    (s : Spring F) (hw : w.meshes = [⟨[a, b], [s]⟩])
    (hs : (s.m1 = 0 ∧ s.m2 = 1) ∨ (s.m1 = 1 ∧ s.m2 = 0))
    (hd : sqrt (lenSqr (b.pos - a.pos)) = s.restLen) (hL : 0 < s.restLen)
    (hva : a.pos = a.lastPos) (hvb : b.pos = b.lastPos)
    (hma : 0 < a.mass) (hmb : 0 < b.mass) (hR : a.r + b.r ≤ s.restLen)
    (hia : w.activeBound.contains a.pos) (hib : w.activeBound.contains b.pos) :
    ∃ w' a' b', w.run dt sqrt (List.replicate n Input.idle) = some w' ∧
      w'.meshes = [⟨[a', b'], [s]⟩] ∧
      a'.pos = a.pos ∧ a'.lastPos = a.lastPos ∧ b'.pos = b.pos ∧ b'.lastPos = b.lastPos := by
  induction n generalizing w a b with
  | zero => exact ⟨w, a, b, rfl, hw, rfl, rfl, rfl, rfl⟩
  | succ n ih =>
    have hstep := World.update_rest dt sqrt w a b s hw hs hd hL hva hvb hma hmb hR hia hib
    obtain ⟨w', a', b', h1, h2, h3, h4, h5, h6⟩ :=
      ih { w with meshes := [⟨[{ a with acc := ⟨0, 0⟩ }, { b with acc := ⟨0, 0⟩ }], [s]⟩] }
        { a with acc := ⟨0, 0⟩ } { b with acc := ⟨0, 0⟩ } rfl hd hva hvb hma hmb hR hia hib
    refine ⟨w', a', b', ?_, h2, h3, h4, h5, h6⟩
    simp only [List.replicate_succ, World.run, hstep, Option.some_bind]
    exact h1

/-- Witness for C4: particles at `(0, 0)` and `(100, 0)` joined by a spring
of rest length 100 are unmoved after 240 passes of the main loop. -/
theorem World.run_rest_witness :
    (ratSqrt (lenSqr (restB.pos - restA.pos)) = restSpring.restLen ∧
      0 < restSpring.restLen ∧ restA.pos = restA.lastPos ∧ restB.pos = restB.lastPos ∧
      0 < restA.mass ∧ 0 < restB.mass ∧ restA.r + restB.r ≤ restSpring.restLen ∧
      restWorld.activeBound.contains restA.pos ∧ restWorld.activeBound.contains restB.pos) ∧
    ∃ w' a' b', restWorld.run dt ratSqrt (List.replicate 240 Input.idle) = some w' ∧
      w'.meshes = [⟨[a', b'], [restSpring]⟩] ∧
      a'.pos = ⟨0, 0⟩ ∧ a'.lastPos = ⟨0, 0⟩ ∧ b'.pos = ⟨100, 0⟩ ∧ b'.lastPos = ⟨100, 0⟩ := by
  have hd : ratSqrt (lenSqr (restB.pos - restA.pos)) = restSpring.restLen := by
    have h : lenSqr (restB.pos - restA.pos) = (100 : ℚ) * 100 := by
      norm_num [lenSqr, restA, restB]
    rw [h, ratSqrt_mul_self 100 (by norm_num)]
    rfl
  have hL : 0 < restSpring.restLen := by norm_num [restSpring]
  have hma : 0 < restA.mass := by norm_num [restA]
  have hmb : 0 < restB.mass := by norm_num [restB]
  have hR : restA.r + restB.r ≤ restSpring.restLen := by norm_num [restA, restB, restSpring]
  have hia : restWorld.activeBound.contains restA.pos := by
    norm_num [Bound.contains, restWorld, mainBound, restA, WIDTH, HEIGHT]
  have hib : restWorld.activeBound.contains restB.pos := by
    norm_num [Bound.contains, restWorld, mainBound, restB, WIDTH, HEIGHT]
  exact ⟨⟨hd, hL, rfl, rfl, hma, hmb, hR, hia, hib⟩,
    World.run_rest dt ratSqrt 240 restWorld restA restB restSpring rfl (Or.inl ⟨rfl, rfl⟩)
      hd hL rfl rfl hma hmb hR hia hib⟩

/-- C5: `Mass::move` sets `pos` to `pos + (pos - lastPos) + acc·dt²` and
`lastPos` to the previous `pos`, leaves `acc`, `mass` and `r` unchanged, and
so adds `acc·dt²` to the implicit velocity `pos - lastPos`. -/
theorem Mass.move_verlet (dt : F) (m : Mass F) :
    (m.move dt).pos = m.pos + (m.pos - m.lastPos) + m.acc * (dt * dt) ∧
    (m.move dt).lastPos = m.pos ∧
    (m.move dt).acc = m.acc ∧ (m.move dt).mass = m.mass ∧ (m.move dt).r = m.r ∧
    (m.move dt).getVelV = m.getVelV + m.acc * (dt * dt) := by
  refine ⟨?_, rfl, rfl, rfl, rfl, ?_⟩
  · ext <;> simp [Mass.move] <;> ring
  · ext <;> simp [Mass.move, Mass.getVelV] <;> ring

/-- C6 (as stated, refuted): with `bounceEnergy = 1` a particle that moves
towards the boundary from outside is clamped on `x` and leaves `checkBounds`
with a larger velocity on `x` (10 instead of 9); with `bounceEnergy = -5` a
particle that has just left the boundary leaves it with 5 instead of 2. -/
theorem checkBounds_bounce_gains_speed :
    ((1 : ℚ) ≤ 1 ∧
      (returningMass.checkBounds unitBound 1).pos.x ≠ returningMass.pos.x ∧
      ¬ |(returningMass.checkBounds unitBound 1).getVelV.x| ≤ |returningMass.getVelV.x|) ∧
    ((-5 : ℚ) ≤ 1 ∧
      (leavingMass.checkBounds unitBound (-5)).pos.x ≠ leavingMass.pos.x ∧
      ¬ |(leavingMass.checkBounds unitBound (-5)).getVelV.x| ≤ |leavingMass.getVelV.x|) := by
  norm_num [Mass.checkBounds, Mass.changeVel, Mass.getVelV, returningMass, leavingMass,
    unitBound, abs_le]

/-- C6 (amended): for `-1 ≤ bounceEnergy ≤ 1`, every particle that
`checkBounds` clamps on an axis (its `pos` changes on that axis) and whose
`lastPos` was inside the boundary on that axis leaves `checkBounds` with an
implicit velocity on that axis that is at most as large as before. -/
theorem World.checkBounds_no_energy_gain (w : World F)
    (hb : -1 ≤ w.bounceEnergy ∧ w.bounceEnergy ≤ 1) :
    w.checkBounds.allMasses
      = w.allMasses.map (Mass.checkBounds w.activeBound w.bounceEnergy) ∧
    ∀ m ∈ w.allMasses,
      ((m.checkBounds w.activeBound w.bounceEnergy).pos.x ≠ m.pos.x →
        w.activeBound.pos.x ≤ m.lastPos.x →
        m.lastPos.x ≤ w.activeBound.pos.x + w.activeBound.size.x →
        |(m.checkBounds w.activeBound w.bounceEnergy).getVelV.x| ≤ |m.getVelV.x|) ∧
      ((m.checkBounds w.activeBound w.bounceEnergy).pos.y ≠ m.pos.y →
        w.activeBound.pos.y ≤ m.lastPos.y →
        m.lastPos.y ≤ w.activeBound.pos.y + w.activeBound.size.y →
        |(m.checkBounds w.activeBound w.bounceEnergy).getVelV.y| ≤ |m.getVelV.y|) := by
  have hb1 : |w.bounceEnergy| ≤ 1 := abs_le.mpr hb
  refine ⟨World.allMasses_checkBounds w, fun m _ => ⟨?_, ?_⟩⟩
  · intro hne h1 h2
    simp only [Mass.checkBounds, Mass.changeVel, Mass.getVelV] at hne ⊢
    split_ifs at hne ⊢ <;> simp_all
    all_goals
      first
      | (exfalso; linarith)
      | exact abs_bounce_le _ _ _ _ hb1 (Or.inl ⟨by linarith, by linarith⟩)
      | exact abs_bounce_le _ _ _ _ hb1 (Or.inr ⟨by linarith, by linarith⟩)
  · intro hne h1 h2
    simp only [Mass.checkBounds, Mass.changeVel, Mass.getVelV] at hne ⊢
    split_ifs at hne ⊢ <;> simp_all
    all_goals
      first
      | (exfalso; linarith)
      | exact abs_bounce_le _ _ _ _ hb1 (Or.inl ⟨by linarith, by linarith⟩)
      | exact abs_bounce_le _ _ _ _ hb1 (Or.inr ⟨by linarith, by linarith⟩)

/-- Witness for C6 (amended): with `bounceEnergy = 1` a particle that has
just left the boundary through the left edge is clamped without gaining
speed on `x`. -/
theorem World.checkBounds_no_energy_gain_witness :
    ((-1 : ℚ) ≤ (looseWorld 1 [leavingMass]).bounceEnergy ∧
      (looseWorld 1 [leavingMass]).bounceEnergy ≤ 1) ∧
    |(leavingMass.checkBounds unitBound 1).getVelV.x| ≤ |leavingMass.getVelV.x| := by
  have hb : (-1 : ℚ) ≤ (looseWorld 1 [leavingMass]).bounceEnergy ∧
      (looseWorld 1 [leavingMass]).bounceEnergy ≤ 1 := by
    norm_num [looseWorld]
  have h := (World.checkBounds_no_energy_gain (looseWorld 1 [leavingMass]) hb).2 leavingMass
    (by simp [World.allMasses, looseWorld])
  exact ⟨hb, h.1
    (by norm_num [looseWorld, unitBound, leavingMass, Mass.checkBounds, Mass.changeVel])
    (by norm_num [looseWorld, unitBound, leavingMass])
    (by norm_num [looseWorld, unitBound, leavingMass])⟩

/-- C7 (as stated, refuted): the particle of the free-fall scenario (radius
10, mass 1, at rest at `(500, 990)` inside a boundary with floor `y = 1000`,
external force `(0, 500)` every pass) does not end up at
`pos.y = 1000 - radius = 990`. -/
theorem freeFall_not_at_floor_minus_radius :
    ¬ ∃ N : Nat, ∀ n, N ≤ n → ∃ w' m,
      fallWorld.run dt ratSqrt (List.replicate n Input.gravity) = some w' ∧
      w'.allMasses = [m] ∧ m.pos.y = 1000 - m.r ∧ m.pos.y = 990 := by
  rintro ⟨N, h⟩
  obtain ⟨M, hM⟩ := fall_settles 500 990 ⟨0, 0⟩ (by norm_num) (by norm_num) (by norm_num)
    (by norm_num)
  obtain ⟨w', m, h1, h2, -, h3⟩ := h (N + M) (Nat.le_add_right _ _)
  rw [fallWorld, hM (N + M) (Nat.le_add_left _ _), Option.some.injEq] at h1
  subst h1
  have hm : m = ⟨1, 10, ⟨500, 1000⟩, ⟨500, 1000⟩, ⟨0, 500⟩⟩ := by
    simpa [World.allMasses, fallAt] using h2.symm
  rw [hm] at h3
  norm_num at h3

/-- C7 (amended): a single particle of radius 10 and mass 1 that starts with
zero velocity anywhere inside the boundary `[0, 1000] × [0, 1000]`, with
`dt = 1/240` and `bounceEnergy = 1`, stepped with the external force
`(0, 500)` every pass, has from some pass on `pos.y = lastPos.y = 1000`: it
rests on the floor itself, `checkBounds` clamps the centre to the boundary
and does not subtract the radius. -/
theorem World.run_freeFall_settles (x h : ℚ) (a : Vec2 ℚ) (hx0 : 0 ≤ x) (hx1 : x ≤ 1000)
    (hh0 : 0 ≤ h) (hh1 : h ≤ 1000) :
    ∃ N, ∀ n, N ≤ n → ∃ w' m,
      (fallAt x h h a).run dt ratSqrt (List.replicate n Input.gravity) = some w' ∧
      w'.allMasses = [m] ∧ m.r = 10 ∧ m.mass = 1 ∧ m.pos.y = 1000 ∧ m.lastPos.y = 1000 ∧
      m.pos.y = w'.activeBound.pos.y + w'.activeBound.size.y := by
  obtain ⟨N, hN⟩ := fall_settles x h a hx0 hx1 hh0 hh1
  refine ⟨N, fun n hn => ⟨_, ⟨1, 10, ⟨x, 1000⟩, ⟨x, 1000⟩, ⟨0, 500⟩⟩, hN n hn, rfl, rfl, rfl,
    rfl, rfl, ?_⟩⟩
  norm_num [fallAt, fallBound]

/-- Witness for C7 (amended): the scenario started at rest at `(500, 990)`. -/
theorem World.run_freeFall_settles_witness :
    ((0 : ℚ) ≤ 500 ∧ (500 : ℚ) ≤ 1000 ∧ (0 : ℚ) ≤ 990 ∧ (990 : ℚ) ≤ 1000) ∧
    ∃ N, ∀ n, N ≤ n → ∃ w' m,
      fallWorld.run dt ratSqrt (List.replicate n Input.gravity) = some w' ∧
      w'.allMasses = [m] ∧ m.r = 10 ∧ m.mass = 1 ∧ m.pos.y = 1000 ∧ m.lastPos.y = 1000 ∧
      m.pos.y = w'.activeBound.pos.y + w'.activeBound.size.y :=
  ⟨by norm_num, World.run_freeFall_settles 500 990 ⟨0, 0⟩ (by norm_num) (by norm_num)
    (by norm_num) (by norm_num)⟩

/-- C8: `Mass::changeVel` leaves `pos` (and `acc`, `mass`, `r`) unchanged and
multiplies the implicit velocity `pos - lastPos` component-wise by the
factor; a factor component `1` leaves that component of `lastPos`, hence of
the velocity, untouched. -/
theorem Mass.changeVel_scales (m : Mass F) (f : Vec2 F) (fx fy : F) :
    (m.changeVel f).pos = m.pos ∧
    (m.changeVel f).acc = m.acc ∧ (m.changeVel f).mass = m.mass ∧ (m.changeVel f).r = m.r ∧
    (m.changeVel f).getVelV = ⟨m.getVelV.x * f.x, m.getVelV.y * f.y⟩ ∧
    (m.changeVel ⟨1, fy⟩).lastPos.x = m.lastPos.x ∧
    (m.changeVel ⟨1, fy⟩).getVelV.x = m.getVelV.x ∧
    (m.changeVel ⟨fx, 1⟩).lastPos.y = m.lastPos.y ∧
    (m.changeVel ⟨fx, 1⟩).getVelV.y = m.getVelV.y := by
  refine ⟨rfl, rfl, rfl, rfl, ?_, ?_, ?_, ?_, ?_⟩
  · ext <;> simp [Mass.changeVel, Mass.getVelV] <;> ring
  all_goals simp [Mass.changeVel, Mass.getVelV]

/-- C9 (as stated, refuted): a spring that satisfies the data model with
rest length 0 between two particles at the same position makes
`Spring::calculateMassAcc` divide by zero (`seperation /= restLen`): the call
has no result. -/
theorem Spring.calculateMassAcc_zero_restLen_fails :
    (0 ≤ zeroSpring.restLen ∧ 0 < zeroSpring.springConstant ∧
      0 ≤ zeroSpring.dampingConstant) ∧
    (coincidentPair[zeroSpring.m1]? = some stillMass ∧
      coincidentPair[zeroSpring.m2]? = some stillMass ∧ 0 < stillMass.mass) ∧
    zeroSpring.calculateMassAcc ratSqrt coincidentPair = none := by
  refine ⟨by norm_num [zeroSpring], ⟨rfl, rfl, by norm_num [stillMass]⟩, ?_⟩
  simp [Spring.calculateMassAcc, Spring.elastic, zeroSpring, coincidentPair]

/-- C9 (amended): for a spring with positive rest length and endpoints of
positive mass at the same position, `Spring::calculateMassAcc` evaluates
without dividing by zero and leaves every mass of the mesh, in particular
the `acc` of both endpoints, unchanged, whatever the velocities, stiffness
and damping. -/
theorem Spring.calculateMassAcc_coincident (sqrt : F → F) (s : Spring F)
    (ms : List (Mass F)) (m1 m2 : Mass F) (hs0 : sqrt 0 = 0)
    (h1 : ms[s.m1]? = some m1) (h2 : ms[s.m2]? = some m2) (hpos : m1.pos = m2.pos)
    (hm1 : 0 < m1.mass) (hm2 : 0 < m2.mass) (hr : 0 < s.restLen) :
    s.elastic sqrt ms = some ms ∧ s.damping sqrt ms = some ms ∧
    s.calculateMassAcc sqrt ms = some ms := by
  have hf : s.force sqrt m1 m2 = ⟨0, 0⟩ := by
    simp only [Spring.force, hpos, normalize_sub_self sqrt hs0]
    ext <;> simp
  have hd : s.dampingForce sqrt m1 m2 = ⟨0, 0⟩ := by
    simp only [Spring.dampingForce, hpos, normalize_sub_self sqrt hs0]
    ext <;> simp
  exact Spring.calculateMassAcc_of_zero sqrt s ms m1 m2 h1 h2 hm1.ne' hm2.ne' hr.ne' hf hd

/-- Witness for C9 (amended): the spring of rest length 100 on two particles
at the same position. -/
theorem Spring.calculateMassAcc_coincident_witness :
    (ratSqrt 0 = 0 ∧ stillMass.pos = stillMass.pos ∧ 0 < stillMass.mass ∧
      0 < restSpring.restLen) ∧
    restSpring.calculateMassAcc ratSqrt coincidentPair = some coincidentPair :=
  ⟨⟨ratSqrt_zero, rfl, by norm_num [stillMass], by norm_num [restSpring]⟩,
   (Spring.calculateMassAcc_coincident ratSqrt restSpring coincidentPair stillMass stillMass
    ratSqrt_zero rfl rfl rfl (by norm_num [stillMass]) (by norm_num [stillMass])
    (by norm_num [restSpring])).2.2⟩

/-- C10 (the code at the failing input): for two overlapping particles at
the same position `checkExternalCollision` divides the zero connecting
vector by the zero distance; the call has no result, the particles are not
"left in place". -/
theorem World.checkExternalCollision_coincident_fails :
    (looseWorld 1 coincidentPair).checkExternalCollision dt ratSqrt = none := by
  simp only [World.checkExternalCollision]
  rw [show (looseWorld 1 coincidentPair).allMasses = [stillMass, stillMass] from rfl,
    show collisionPairs ([stillMass, stillMass] : List (Mass ℚ)).length = [(0, 1)] from rfl]
  have h : collidePair dt ratSqrt [stillMass, stillMass] (0, 1) = none := by
    simp only [collidePair]
    norm_num [stillMass, lenSqr, ratSqrt_zero]
  simp [List.foldlM_cons, h]

/-- C11: `normalize` never divides by zero and returns `(0, 0)` when
`len v = 0`; when `len v ≠ 0` (for a square root that is non-negative and
exact at `v`, with `sqrt 1 = 1`) the result is `v` scaled by the positive
factor `1 / len v` and has length 1. -/
theorem normalize_unit (sqrt : F → F) (v : Vec2 F) (h0 : 0 ≤ len sqrt v)
    (hsq : len sqrt v * len sqrt v = lenSqr v) (h1 : sqrt 1 = 1) :
    normalizeChecked sqrt v = some (normalize sqrt v) ∧
    (len sqrt v = 0 → normalize sqrt v = ⟨0, 0⟩) ∧
    (len sqrt v ≠ 0 →
      normalize sqrt v = v * (1 / len sqrt v) ∧ 0 < 1 / len sqrt v ∧
      lenSqr (normalize sqrt v) = 1 ∧ len sqrt (normalize sqrt v) = 1) := by
  refine ⟨?_, ?_, ?_⟩
  · unfold normalizeChecked normalize
    by_cases h : len sqrt v = 0 <;> simp [h]
  · intro h
    simp [normalize, h]
  · intro h
    have hpos : 0 < len sqrt v := lt_of_le_of_ne h0 (Ne.symm h)
    have hn : normalize sqrt v = v / len sqrt v := by simp [normalize, h]
    have hl : lenSqr (normalize sqrt v) = 1 := by
      rw [hn]
      have : lenSqr (v / len sqrt v) = lenSqr v / (len sqrt v * len sqrt v) := by
        simp only [lenSqr, Vec2.div_x, Vec2.div_y]; field_simp
      rw [this, ← hsq, div_self (mul_ne_zero h h)]
    refine ⟨?_, by positivity, hl, ?_⟩
    · rw [hn]; ext <;> simp [div_eq_mul_inv]
    · have : len sqrt (normalize sqrt v) = sqrt (lenSqr (normalize sqrt v)) := rfl
      rw [this, hl, h1]

/-- Witness for C11: the vector `(3, 4)` of length 5 is normalised to
`(3/5, 4/5)`, of length 1. -/
theorem normalize_unit_witness :
    (0 ≤ len ratSqrt threeFour ∧ len ratSqrt threeFour * len ratSqrt threeFour = lenSqr threeFour ∧
      ratSqrt 1 = 1) ∧
    normalizeChecked ratSqrt threeFour = some ⟨3 / 5, 4 / 5⟩ ∧
    len ratSqrt (normalize ratSqrt threeFour) = 1 := by
  have hl : len ratSqrt threeFour = 5 := by
    have h := ratSqrt_mul_self 5 (by norm_num)
    have e : (threeFour.x * threeFour.x + threeFour.y * threeFour.y : ℚ) = 5 * 5 := by
      norm_num [threeFour]
    rw [len, e, h]
  have h1 : ratSqrt 1 = 1 := by
    have h := ratSqrt_mul_self 1 (by norm_num)
    simpa using h
  have h0 : 0 ≤ len ratSqrt threeFour := by rw [hl]; norm_num
  have hsq : len ratSqrt threeFour * len ratSqrt threeFour = lenSqr threeFour := by
    rw [hl]; norm_num [lenSqr, threeFour]
  have h := normalize_unit ratSqrt threeFour h0 hsq h1
  refine ⟨⟨h0, hsq, h1⟩, ?_, (h.2.2 (by rw [hl]; norm_num)).2.2.2⟩
  rw [h.1, (h.2.2 (by rw [hl]; norm_num)).1, hl]
  congr 1
  ext <;> norm_num [threeFour]

/-- C12: two worlds that differ only in the `acc` values of their particles
give the same result of one update with the same input, hence the same
`pos` and `lastPos` for every particle; `applyExternalForce` yields such a
world: it adds the same vector to every `acc` and changes no `pos` or
`lastPos`. -/
theorem World.update_forgets_acc [FloorRing F] (dt : F) (sqrt : F → F) (inp : Input F) (force : Vec2 F)
    (w1 w2 : World F) (h : w1.sameButAcc w2) :
    w1.update dt sqrt inp = w2.update dt sqrt inp ∧
    (w1.update dt sqrt inp).map World.positions = (w2.update dt sqrt inp).map World.positions ∧
    w1.sameButAcc (w1.applyExternalForce force) ∧
    (w1.applyExternalForce force).allMasses
      = w1.allMasses.map (fun m => { m with acc := m.acc + force }) ∧
    (w1.applyExternalForce force).positions = w1.positions := by
  have h1 := World.update_congr dt sqrt inp w1 w2 h
  have h2 : w1.sameButAcc (w1.applyExternalForce force) :=
    World.sameButAcc_forMasses_acc (fun m => { m with acc := m.acc + force })
      (fun m => ⟨rfl, rfl, rfl, rfl⟩) w1
  exact ⟨h1, by rw [h1], h2, World.allMasses_forMasses _ w1,
    (World.positions_sameButAcc _ _ h2).symm⟩

/-- Witness for C12: the spring-at-rest world with and without the external
force of a previous pass. -/
theorem World.update_forgets_acc_witness :
    restWorld.sameButAcc (restWorld.applyExternalForce ⟨0, 500⟩) ∧
    restWorld.update dt ratSqrt Input.idle
      = (restWorld.applyExternalForce ⟨0, 500⟩).update dt ratSqrt Input.idle :=
  have h : restWorld.sameButAcc (restWorld.applyExternalForce ⟨0, 500⟩) :=
    World.sameButAcc_forMasses_acc (fun m => { m with acc := m.acc + (⟨0, 500⟩ : Vec2 ℚ) })
      (fun _ => ⟨rfl, rfl, rfl, rfl⟩) restWorld
  ⟨h, (World.update_forgets_acc dt ratSqrt Input.idle ⟨0, 0⟩ restWorld _ h).1⟩

/-- C13: `World::doMouseInteraction` maps every mass through the loop body,
which adds the force vector to `acc` exactly when the distance from the
query point is strictly less than the radius (not when it is equal), and
leaves `acc` otherwise and `pos`, `lastPos`, `mass`, `r` always unchanged;
the springs are untouched. -/
theorem World.doMouseInteraction_frame (sqrt : F → F) (mousePos moveV : Vec2 F) (radius : F)
    (w : World F) :
    (w.doMouseInteraction sqrt mousePos moveV radius).allMasses
      = w.allMasses.map (Mass.doMouseInteraction sqrt mousePos moveV radius) ∧
    (w.doMouseInteraction sqrt mousePos moveV radius).meshes.map (fun s => s.springs)
      = w.meshes.map (fun s => s.springs) ∧
    ∀ m : Mass F,
      (m.doMouseInteraction sqrt mousePos moveV radius).pos = m.pos ∧
      (m.doMouseInteraction sqrt mousePos moveV radius).lastPos = m.lastPos ∧
      (m.doMouseInteraction sqrt mousePos moveV radius).mass = m.mass ∧
      (m.doMouseInteraction sqrt mousePos moveV radius).r = m.r ∧
      (m.doMouseInteraction sqrt mousePos moveV radius).acc
        = (if dist sqrt m.pos mousePos < radius then m.acc + moveV else m.acc) ∧
      (dist sqrt m.pos mousePos = radius →
        (m.doMouseInteraction sqrt mousePos moveV radius).acc = m.acc) := by
  refine ⟨?_, ?_, fun m => ?_⟩
  · rw [World.doMouseInteraction_eq]; exact World.allMasses_forMasses _ w
  · simp [World.doMouseInteraction, World.forMasses, List.map_map, Function.comp_def]
  · by_cases h : dist sqrt m.pos mousePos < radius
    · simp only [Mass.doMouseInteraction, h, ↓reduceIte, true_and]
      intro h2; exact absurd h (by rw [h2]; exact lt_irrefl _)
    · simp [Mass.doMouseInteraction, h]

/-- C14 (as stated, refuted): for no world does the `acc` that
`checkExternalCollision` leaves behind change the positions produced by the
next `moveMasses`: after the rest of the pass (`checkBounds` and `k` further
rounds) the next accumulation and move yields the same `pos` and `lastPos`
from the world with the impulse and from any world that differs from it
only in `acc`, as the world without the impulse does. -/
theorem collision_impulse_not_integrated :
    ¬ ∃ (w w' wNo : World ℚ) (k : Nat) (inp : Input ℚ),
      w.checkExternalCollision dt ratSqrt = some w' ∧ w'.sameButAcc wNo ∧
      ((w'.checkBounds.relaxN dt ratSqrt k).bind (World.forcesAndMove dt ratSqrt inp)).map
          World.positions
        ≠ ((wNo.checkBounds.relaxN dt ratSqrt k).bind (World.forcesAndMove dt ratSqrt inp)).map
          World.positions := by
  rintro ⟨w, w', wNo, k, inp, -, h, hne⟩
  exact hne (by rw [World.relaxN_forcesAndMove_congr dt ratSqrt k inp _ _
    (World.checkBounds_sameButAcc _ _ h)])

/-- C14 (amended): for two overlapping particles at distinct positions
`checkExternalCollision` adds the equal and opposite impulses
`∓ u · c · dt · 100000` to their `acc` (`u` the connecting axis, `c ≥ 0` the
value line 342 computes from the overlap) and nothing else depends on them:
the result differs only in `acc` from the world without the impulse, and
from any such world the rest of the pass (`checkBounds`, `k` further rounds)
followed by the next accumulation and `moveMasses` yields the same world,
because every pass starts with `resetMassAcc`. -/
theorem World.checkExternalCollision_impulse_inert [FloorRing F] (dt : F) (sqrt : F → F)
    (w : World F) (a b : Mass F) (d : F) (hw : w.allMasses = [a, b])
    (hd : sqrt (lenSqr (b.pos - a.pos)) = d) (hdd : d * d = lenSqr (b.pos - a.pos))
    (hd0 : 0 < d) (hlt : d < a.r + b.r) :
    ∃ w' a' b', w.checkExternalCollision dt sqrt = some w' ∧ w'.allMasses = [a', b'] ∧
      0 ≤ intAbs (d - (b.r + a.r)) ∧
      a'.acc = a.acc - (b.pos - a.pos) / d * intAbs (d - (b.r + a.r)) * dt * (100000 : F) ∧
      b'.acc = b.acc + (b.pos - a.pos) / d * intAbs (d - (b.r + a.r)) * dt * (100000 : F) ∧
      w'.sameButAcc { w' with meshes := (setMasses w.meshes
        [{ a' with acc := a.acc }, { b' with acc := b.acc }]) } ∧
      ∀ wNo : World F, w'.sameButAcc wNo → ∀ (k : Nat) (inp : Input F),
        (w'.checkBounds.relaxN dt sqrt k).bind (World.forcesAndMove dt sqrt inp)
          = (wNo.checkBounds.relaxN dt sqrt k).bind (World.forcesAndMove dt sqrt inp) := by
  refine ⟨_, _, _, World.checkExternalCollision_overlap dt sqrt w a b d hw hd hdd hd0 hlt,
    allMasses_setMasses w.meshes _ (by rw [← World.allMasses, hw]; rfl), ?_, rfl, rfl, ?_, ?_⟩
  · unfold intAbs
    exact_mod_cast abs_nonneg _
  · refine ⟨setMasses_congr _ _ (World.sameButAcc_refl w).1 _ _ ?_, rfl, rfl⟩
    exact List.Forall₂.cons ⟨rfl, rfl, rfl, rfl⟩
      (List.Forall₂.cons ⟨rfl, rfl, rfl, rfl⟩ List.Forall₂.nil)
  · intro wNo h k inp
    exact World.relaxN_forcesAndMove_congr dt sqrt k inp _ _
      (World.checkBounds_sameButAcc _ _ h)

/-- Witness for C14 (amended): for two particles of radius 10 with centres
17.5 apart the impulse is `(∓ 2500/3, 0)` and does not reach the next
`moveMasses`. -/
theorem World.checkExternalCollision_impulse_inert_witness :
    (ratSqrt (lenSqr (fracB.pos - fracA.pos)) = 35 / 2 ∧
      (35 / 2 : ℚ) * (35 / 2) = lenSqr (fracB.pos - fracA.pos) ∧
      (0 : ℚ) < 35 / 2 ∧ (35 / 2 : ℚ) < fracA.r + fracB.r) ∧
    ∃ w' a' b',
      (looseWorld 1 [fracA, fracB]).checkExternalCollision dt ratSqrt = some w' ∧
      w'.allMasses = [a', b'] ∧ a'.acc = ⟨-2500 / 3, 0⟩ ∧ b'.acc = ⟨2500 / 3, 0⟩ ∧
      ∀ wNo : World ℚ, w'.sameButAcc wNo → ∀ (k : Nat) (inp : Input ℚ),
        (w'.checkBounds.relaxN dt ratSqrt k).bind (World.forcesAndMove dt ratSqrt inp)
          = (wNo.checkBounds.relaxN dt ratSqrt k).bind (World.forcesAndMove dt ratSqrt inp) := by
  have hdd : (35 / 2 : ℚ) * (35 / 2) = lenSqr (fracB.pos - fracA.pos) := by
    norm_num [lenSqr, fracA, fracB]
  have hd : ratSqrt (lenSqr (fracB.pos - fracA.pos)) = 35 / 2 := by
    rw [← hdd]; exact ratSqrt_mul_self (35 / 2) (by norm_num)
  have hlt : (35 / 2 : ℚ) < fracA.r + fracB.r := by norm_num [fracA, fracB]
  have hk : intAbs ((35 / 2 : ℚ) - (fracB.r + fracA.r)) = 2 := by
    rw [intAbs_of_nonpos _ (by norm_num [fracA, fracB])]
    have : ⌊-((35 / 2 : ℚ) - (fracB.r + fracA.r))⌋ = 2 := by
      rw [Int.floor_eq_iff]; norm_num [fracA, fracB]
    rw [this]; norm_num
  obtain ⟨w', a', b', h1, h2, -, h3, h4, -, h5⟩ :=
    World.checkExternalCollision_impulse_inert dt ratSqrt (looseWorld 1 [fracA, fracB])
      fracA fracB (35 / 2) rfl hd hdd (by norm_num) hlt
  refine ⟨⟨hd, hdd, by norm_num, hlt⟩, w', a', b', h1, h2, ?_, ?_, h5⟩
  · rw [h3, hk]; ext <;> norm_num [fracA, fracB, dt, MAX_FRAMES]
  · rw [h4, hk]; ext <;> norm_num [fracA, fracB, dt, MAX_FRAMES]

/-- C15: for a boundary of non-negative size, one `checkBounds` corrects
only `x` of a particle that is outside on both axes on the same side, two
consecutive `checkBounds` leave every particle inside the boundary on both
axes, and a particle already inside is left completely unchanged. -/
theorem World.checkBounds_two_passes (w : World F)
    (hx : 0 ≤ w.activeBound.size.x) (hy : 0 ≤ w.activeBound.size.y) :
    w.checkBounds.allMasses
      = w.allMasses.map (Mass.checkBounds w.activeBound w.bounceEnergy) ∧
    w.checkBounds.checkBounds.allMasses
      = w.allMasses.map (fun m => (m.checkBounds w.activeBound w.bounceEnergy).checkBounds
          w.activeBound w.bounceEnergy) ∧
    ∀ m ∈ w.allMasses,
      (m.pos.x < w.activeBound.pos.x ∧ m.pos.y < w.activeBound.pos.y →
        (m.checkBounds w.activeBound w.bounceEnergy).pos = ⟨w.activeBound.pos.x, m.pos.y⟩) ∧
      (m.pos.x > w.activeBound.pos.x + w.activeBound.size.x ∧
        m.pos.y > w.activeBound.pos.y + w.activeBound.size.y →
        (m.checkBounds w.activeBound w.bounceEnergy).pos
          = ⟨w.activeBound.pos.x + w.activeBound.size.x, m.pos.y⟩) ∧
      w.activeBound.contains ((m.checkBounds w.activeBound w.bounceEnergy).checkBounds
        w.activeBound w.bounceEnergy).pos ∧
      (w.activeBound.contains m.pos → m.checkBounds w.activeBound w.bounceEnergy = m) := by
  refine ⟨World.allMasses_checkBounds w, ?_, fun m _ => ⟨?_, ?_, ?_, ?_⟩⟩
  · rw [World.allMasses_checkBounds, World.allMasses_checkBounds, List.map_map]
    rfl
  · rintro ⟨h1, h2⟩
    have h3 : ¬ (w.activeBound.pos.x > w.activeBound.pos.x + w.activeBound.size.x) := by
      simp only [gt_iff_lt, not_lt]; linarith
    have h4 : ¬ (m.pos.y > w.activeBound.pos.y + w.activeBound.size.y) := by
      simp only [gt_iff_lt, not_lt]; linarith
    simp [Mass.checkBounds, Mass.changeVel, h1, h3, h4]
  · rintro ⟨h1, h2⟩
    have h3 : ¬ (m.pos.x < w.activeBound.pos.x) := by
      simp only [not_lt]; linarith
    have h4 : ¬ (m.pos.y < w.activeBound.pos.y) := by
      simp only [not_lt]; linarith
    simp [Mass.checkBounds, Mass.changeVel, h1, h3, h4]
  · exact Mass.checkBounds_twice_inside _ _ _ hx hy
  · intro h
    exact Mass.checkBounds_inside _ _ _ h.1 h.2.1 h.2.2.1 h.2.2.2

/-- Witness for C15: the particle at `(-1, -1)` outside `[0, 100]²` is at
`(0, -1)` after one pass and inside after two. -/
theorem World.checkBounds_two_passes_witness :
    ((0 : ℚ) ≤ (looseWorld 1 [cornerMass]).activeBound.size.x ∧
      (0 : ℚ) ≤ (looseWorld 1 [cornerMass]).activeBound.size.y) ∧
    (cornerMass.checkBounds unitBound 1).pos = ⟨0, -1⟩ ∧
    unitBound.contains ((cornerMass.checkBounds unitBound 1).checkBounds unitBound 1).pos := by
  have hx : (0 : ℚ) ≤ (looseWorld 1 [cornerMass]).activeBound.size.x := by
    norm_num [looseWorld, unitBound]
  have hy : (0 : ℚ) ≤ (looseWorld 1 [cornerMass]).activeBound.size.y := by
    norm_num [looseWorld, unitBound]
  have h := (World.checkBounds_two_passes (looseWorld 1 [cornerMass]) hx hy).2.2 cornerMass
    (by simp [World.allMasses, looseWorld])
  exact ⟨⟨hx, hy⟩, h.1 (by norm_num [looseWorld, unitBound, cornerMass]), h.2.2.1⟩

/-- C16: for a spring with positive rest length and stiffness, positive
masses and endpoints at distinct positions at distance `d > 0`, the elastic
part of `Spring::calculateMassAcc` adds
`stiffness · normalize(m1.pos - m2.pos) · ((restLen - d) / restLen) / m1.mass`
to `m1.acc`; this is `(m1.pos - m2.pos) · c` with `c > 0` (away from `m2`)
when `d < restLen`, `c < 0` (towards `m2`) when `d > restLen`, and zero when
`d = restLen`. -/
theorem Spring.elastic_direction (sqrt : F → F) (s : Spring F) (ms : List (Mass F))
    (m1 m2 : Mass F) (h1 : ms[s.m1]? = some m1) (h2 : ms[s.m2]? = some m2)
    (hpos : m1.pos ≠ m2.pos) (hd : 0 < dist sqrt m1.pos m2.pos)
    (hr : 0 < s.restLen) (hk : 0 < s.springConstant)
    (hm1 : 0 < m1.mass) (hm2 : 0 < m2.mass) :
    ∃ ms1 a1, ∃ c : F, s.elastic sqrt ms = some ms1 ∧ ms1[s.m1]? = some a1 ∧
      a1.acc - m1.acc
        = s.springConstant * normalize sqrt (m1.pos - m2.pos)
            * ((s.restLen - dist sqrt m1.pos m2.pos) / s.restLen) / m1.mass ∧
      a1.acc - m1.acc = (m1.pos - m2.pos) * c ∧
      (dist sqrt m1.pos m2.pos < s.restLen → 0 < c) ∧
      (s.restLen < dist sqrt m1.pos m2.pos → c < 0) ∧
      (dist sqrt m1.pos m2.pos = s.restLen → c = 0 ∧ a1.acc = m1.acc) := by
  have hne : s.m1 ≠ s.m2 := by
    intro h
    rw [h, h2] at h1
    exact hpos (by rw [Option.some.inj h1])
  have hl : len sqrt (m1.pos - m2.pos) = dist sqrt m1.pos m2.pos := (dist_eq_len_sub sqrt _ _).symm
  obtain ⟨d, hdd⟩ : ∃ d, dist sqrt m1.pos m2.pos = d := ⟨_, rfl⟩
  rw [hdd] at hd hl ⊢
  have hd' := hd.ne'
  have hr' := hr.ne'
  have hm1' := hm1.ne'
  have hn : normalize sqrt (m1.pos - m2.pos) = (m1.pos - m2.pos) / d := by
    simp [normalize, hl, hd']
  have e1 : s.elastic sqrt ms
      = some (subAcc s.m2 (s.force sqrt m1 m2 / m2.mass)
          (addAcc s.m1 (s.force sqrt m1 m2 / m1.mass) ms)) := by
    simp [Spring.elastic, h1, h2, hr.ne', hm1.ne', hm2.ne']
  have g1 : (subAcc s.m2 (s.force sqrt m1 m2 / m2.mass)
      (addAcc s.m1 (s.force sqrt m1 m2 / m1.mass) ms))[s.m1]?
        = some { m1 with acc := m1.acc + s.force sqrt m1 m2 / m1.mass } := by
    simp [getElem?_addAcc, getElem?_subAcc, h1, hne, hne.symm]
  have hf : s.force sqrt m1 m2
      = s.springConstant * normalize sqrt (m1.pos - m2.pos) * ((s.restLen - d) / s.restLen) := by
    simp only [Spring.force, hdd]
  refine ⟨_, _, s.springConstant * ((s.restLen - d) / s.restLen) / (d * m1.mass), e1, g1,
    ?_, ?_, ?_, ?_, ?_⟩
  · rw [hf]; ext <;> simp
  · rw [hf, hn]; ext <;> simp <;> field_simp <;> ring
  · intro h
    have h3 : 0 < s.restLen - d := by linarith
    exact div_pos (mul_pos hk (div_pos h3 hr)) (mul_pos hd hm1)
  · intro h
    have h3 : (s.restLen - d) / s.restLen < 0 := div_neg_of_neg_of_pos (by linarith) hr
    have h4 : s.springConstant * ((s.restLen - d) / s.restLen) < 0 :=
      mul_neg_of_pos_of_neg hk h3
    exact div_neg_of_neg_of_pos h4 (mul_pos hd hm1)
  · intro h
    rw [hf, h]
    refine ⟨by simp, ?_⟩
    ext <;> simp

/-- Witness for C16: the spring of rest length 100 between particles at
`(0, 0)` and `(3, 4)`, at distance 5. -/
theorem Spring.elastic_direction_witness :
    (movingA.pos ≠ movingB.pos ∧ 0 < dist ratSqrt movingA.pos movingB.pos ∧
      0 < restSpring.restLen ∧ 0 < restSpring.springConstant ∧
      0 < movingA.mass ∧ 0 < movingB.mass) ∧
    ∃ ms1 a1, ∃ c : ℚ, restSpring.elastic ratSqrt movingPair = some ms1 ∧
      ms1[restSpring.m1]? = some a1 ∧
      a1.acc - movingA.acc
        = restSpring.springConstant * normalize ratSqrt (movingA.pos - movingB.pos)
            * ((restSpring.restLen - dist ratSqrt movingA.pos movingB.pos) / restSpring.restLen)
            / movingA.mass ∧
      a1.acc - movingA.acc = (movingA.pos - movingB.pos) * c ∧
      (dist ratSqrt movingA.pos movingB.pos < restSpring.restLen → 0 < c) ∧
      (restSpring.restLen < dist ratSqrt movingA.pos movingB.pos → c < 0) ∧
      (dist ratSqrt movingA.pos movingB.pos = restSpring.restLen →
        c = 0 ∧ a1.acc = movingA.acc) := by
  have hpos : movingA.pos ≠ movingB.pos := by
    intro h
    have h2 := congrArg Vec2.x h
    norm_num [movingA, movingB] at h2
  have hd : dist ratSqrt movingA.pos movingB.pos = 5 := by
    have h := ratSqrt_mul_self 5 (by norm_num)
    have e : ((movingB.pos - movingA.pos).x * (movingB.pos - movingA.pos).x
        + (movingB.pos - movingA.pos).y * (movingB.pos - movingA.pos).y : ℚ) = 5 * 5 := by
      norm_num [movingA, movingB]
    rw [dist, len, e, h]
  have hd0 : 0 < dist ratSqrt movingA.pos movingB.pos := by rw [hd]; norm_num
  have hr : 0 < restSpring.restLen := by norm_num [restSpring]
  have hk : 0 < restSpring.springConstant := by norm_num [restSpring]
  have hm1 : 0 < movingA.mass := by norm_num [movingA]
  have hm2 : 0 < movingB.mass := by norm_num [movingB]
  exact ⟨⟨hpos, hd0, hr, hk, hm1, hm2⟩,
    Spring.elastic_direction ratSqrt restSpring movingPair movingA movingB rfl rfl hpos hd0 hr
      hk hm1 hm2⟩

/-- C17: for a spring with non-negative damping constant, positive masses
and two distinct endpoints, the damping part of `Spring::calculateMassAcc`
changes the `acc` of each endpoint by a scalar multiple of the spring
direction `normalize(m1.pos - m2.pos)`, by nothing when the relative
velocity is perpendicular to that direction, and never adds energy: the dot
product of the change for `m1` with `vel1 - vel2` (and of the change for
`m2` with `vel2 - vel1`) is at most 0. -/
theorem Spring.damping_dissipates (sqrt : F → F) (s : Spring F) (ms : List (Mass F))
    (m1 m2 : Mass F) (h1 : ms[s.m1]? = some m1) (h2 : ms[s.m2]? = some m2)
    (hne : s.m1 ≠ s.m2) (hc : 0 ≤ s.dampingConstant)
    (hm1 : 0 < m1.mass) (hm2 : 0 < m2.mass) :
    ∃ ms2 b1 b2, ∃ k1 k2 : F, s.damping sqrt ms = some ms2 ∧
      ms2[s.m1]? = some b1 ∧ ms2[s.m2]? = some b2 ∧
      b1.acc - m1.acc = normalize sqrt (m1.pos - m2.pos) * k1 ∧
      b2.acc - m2.acc = normalize sqrt (m1.pos - m2.pos) * k2 ∧
      (dot (m2.getVelV - m1.getVelV) (normalize sqrt (m1.pos - m2.pos)) = 0 →
        b1.acc = m1.acc ∧ b2.acc = m2.acc) ∧
      dot (b1.acc - m1.acc) (m1.getVelV - m2.getVelV) ≤ 0 ∧
      dot (b2.acc - m2.acc) (m2.getVelV - m1.getVelV) ≤ 0 := by
  obtain ⟨u, hu⟩ : ∃ u, normalize sqrt (m1.pos - m2.pos) = u := ⟨_, rfl⟩
  obtain ⟨al, hal⟩ : ∃ al, dot (m2.getVelV - m1.getVelV) u = al := ⟨_, rfl⟩
  have hdf : s.dampingForce sqrt m1 m2 = u * s.dampingConstant * al := by
    simp only [Spring.dampingForce, hu, ← hal, Mass.getVelV]
  have e1 : s.damping sqrt ms
      = some (subAcc s.m2 (s.dampingForce sqrt m1 m2 / m2.mass)
          (addAcc s.m1 (s.dampingForce sqrt m1 m2 / m1.mass) ms)) := by
    simp [Spring.damping, h1, h2, hm1.ne', hm2.ne']
  have g1 : (subAcc s.m2 (s.dampingForce sqrt m1 m2 / m2.mass)
      (addAcc s.m1 (s.dampingForce sqrt m1 m2 / m1.mass) ms))[s.m1]?
        = some { m1 with acc := m1.acc + s.dampingForce sqrt m1 m2 / m1.mass } := by
    simp [getElem?_addAcc, getElem?_subAcc, h1, hne, hne.symm]
  have g2 : (subAcc s.m2 (s.dampingForce sqrt m1 m2 / m2.mass)
      (addAcc s.m1 (s.dampingForce sqrt m1 m2 / m1.mass) ms))[s.m2]?
        = some { m2 with acc := m2.acc - s.dampingForce sqrt m1 m2 / m2.mass } := by
    simp [getElem?_addAcc, getElem?_subAcc, h2, hne, hne.symm]
  have hm1' := hm1.ne'
  have hm2' := hm2.ne'
  have hdot : u.x * (m2.getVelV.x - m1.getVelV.x) + u.y * (m2.getVelV.y - m1.getVelV.y) = al := by
    rw [← hal]; simp only [dot, Vec2.sub_x, Vec2.sub_y]; ring
  rw [hu, hal]
  refine ⟨_, _, _, s.dampingConstant * al / m1.mass, -(s.dampingConstant * al / m2.mass),
    e1, g1, g2, ?_, ?_, ?_, ?_, ?_⟩
  · rw [hdf]; ext <;> simp <;> field_simp <;> ring
  · rw [hdf]; ext <;> simp <;> field_simp <;> ring
  · intro h0
    rw [hdf, h0]
    constructor <;> ext <;> simp
  · rw [hdf]
    simp only [dot, Vec2.sub_x, Vec2.sub_y, Vec2.add_x, Vec2.add_y, Vec2.div_x, Vec2.div_y,
      Vec2.mul_x, Vec2.mul_y]
    have : (m1.acc.x + u.x * s.dampingConstant * al / m1.mass - m1.acc.x)
          * (m1.getVelV.x - m2.getVelV.x)
        + (m1.acc.y + u.y * s.dampingConstant * al / m1.mass - m1.acc.y)
          * (m1.getVelV.y - m2.getVelV.y)
        = -(s.dampingConstant * (al * al) / m1.mass) := by
      rw [← hdot]; field_simp; ring
    rw [this]
    have : 0 ≤ s.dampingConstant * (al * al) / m1.mass :=
      div_nonneg (mul_nonneg hc (mul_self_nonneg al)) hm1.le
    linarith
  · rw [hdf]
    simp only [dot, Vec2.sub_x, Vec2.sub_y, Vec2.add_x, Vec2.add_y, Vec2.div_x, Vec2.div_y,
      Vec2.mul_x, Vec2.mul_y]
    have : (m2.acc.x - u.x * s.dampingConstant * al / m2.mass - m2.acc.x)
          * (m2.getVelV.x - m1.getVelV.x)
        + (m2.acc.y - u.y * s.dampingConstant * al / m2.mass - m2.acc.y)
          * (m2.getVelV.y - m1.getVelV.y)
        = -(s.dampingConstant * (al * al) / m2.mass) := by
      rw [← hdot]; field_simp; ring
    rw [this]
    have : 0 ≤ s.dampingConstant * (al * al) / m2.mass :=
      div_nonneg (mul_nonneg hc (mul_self_nonneg al)) hm2.le
    linarith

/-- Witness for C17: the default damping on the two moving particles. -/
theorem Spring.damping_dissipates_witness :
    (restSpring.m1 ≠ restSpring.m2 ∧ 0 ≤ restSpring.dampingConstant ∧
      0 < movingA.mass ∧ 0 < movingB.mass) ∧
    ∃ ms2 b1 b2, ∃ k1 k2 : ℚ, restSpring.damping ratSqrt movingPair = some ms2 ∧
      ms2[restSpring.m1]? = some b1 ∧ ms2[restSpring.m2]? = some b2 ∧
      b1.acc - movingA.acc = normalize ratSqrt (movingA.pos - movingB.pos) * k1 ∧
      b2.acc - movingB.acc = normalize ratSqrt (movingA.pos - movingB.pos) * k2 ∧
      (dot (movingB.getVelV - movingA.getVelV) (normalize ratSqrt (movingA.pos - movingB.pos)) = 0 →
        b1.acc = movingA.acc ∧ b2.acc = movingB.acc) ∧
      dot (b1.acc - movingA.acc) (movingA.getVelV - movingB.getVelV) ≤ 0 ∧
      dot (b2.acc - movingB.acc) (movingB.getVelV - movingA.getVelV) ≤ 0 :=
  ⟨⟨by decide, by norm_num [restSpring], by norm_num [movingA], by norm_num [movingB]⟩,
    Spring.damping_dissipates ratSqrt restSpring movingPair movingA movingB rfl rfl
      (by decide) (by norm_num [restSpring]) (by norm_num [movingA]) (by norm_num [movingB])⟩

/-- C18: `World::checkExternalCollision` works on the particles of all meshes
concatenated in mesh order, and folds the pair test over `collisionPairs n`
for `n` the number of particles. That list holds exactly the pairs `(x, i)`
with `x < i < n`, each of them once and never in the other order, and holds
no pair `(x, x)`. The test of a pair whose squared centre distance exceeds
`(r1 + r2)²` returns the list of particles unchanged. -/
theorem World.checkExternalCollision_pairs [FloorRing F] (dt : F) (sqrt : F → F) (w : World F) :
    w.allMasses = (w.meshes.map (fun s => s.masses)).flatten ∧
    w.checkExternalCollision dt sqrt
      = ((collisionPairs w.allMasses.length).foldlM (collidePair dt sqrt) w.allMasses).map
          (fun ms => { w with meshes := setMasses w.meshes ms }) ∧
    (∀ p : Nat × Nat, p ∈ collisionPairs w.allMasses.length ↔
      p.1 < p.2 ∧ p.2 < w.allMasses.length) ∧
    (∀ x i : Nat, x < i → i < w.allMasses.length →
      (collisionPairs w.allMasses.length).count (x, i) = 1 ∧
      (collisionPairs w.allMasses.length).count (i, x) = 0) ∧
    (∀ x : Nat, (x, x) ∉ collisionPairs w.allMasses.length) ∧
    (∀ (ms : List (Mass F)) (x i : Nat) (mi mx : Mass F),
      ms[i]? = some mi → ms[x]? = some mx →
      (mi.r + mx.r) * (mi.r + mx.r) < lenSqr (mi.pos - mx.pos) →
      collidePair dt sqrt ms (x, i) = some ms) := by
  refine ⟨rfl, rfl, mem_collisionPairs _, fun x i hxi hi => ⟨?_, ?_⟩, fun x hx => ?_,
    fun ms x i mi mx => collidePair_far dt sqrt ms x i mi mx⟩
  · exact count_pair_eq_one _ _ (nodup_collisionPairs _)
      ((mem_collisionPairs _ (x, i)).mpr ⟨hxi, hi⟩)
  · rw [List.count_eq_zero]
    intro h
    have := ((mem_collisionPairs _ (i, x)).mp h).1
    simp only at this
    omega
  · have := ((mem_collisionPairs _ (x, x)).mp hx).1
    simp only at this
    omega

/-- C19 (the code at the failing input): for two overlapping particles at
the same position, one in each of two meshes, `checkExternalCollision`
divides the zero connecting vector by the zero distance (line 341) and has
no result, so no resulting world has the sum of positions of the initial
one. -/
theorem World.checkExternalCollision_sum_lost :
    (twoMeshWorld stillMass stillMass).checkExternalCollision dt ratSqrt = none ∧
    ¬ ∃ w', (twoMeshWorld stillMass stillMass).checkExternalCollision dt ratSqrt = some w' ∧
      sumPos w'.allMasses = sumPos (twoMeshWorld stillMass stillMass).allMasses := by
  have hn : (twoMeshWorld stillMass stillMass).checkExternalCollision dt ratSqrt = none := by
    simp only [World.checkExternalCollision]
    rw [show (twoMeshWorld stillMass stillMass).allMasses = [stillMass, stillMass] from rfl,
      show collisionPairs ([stillMass, stillMass] : List (Mass ℚ)).length = [(0, 1)] from rfl]
    have h : collidePair dt ratSqrt [stillMass, stillMass] (0, 1) = none := by
      simp only [collidePair]
      norm_num [stillMass, lenSqr, ratSqrt_zero]
    simp [List.foldlM_cons, h]
  refine ⟨hn, ?_⟩
  rintro ⟨w', h, -⟩
  rw [hn] at h
  cases h

/-- C20: for `width ≥ 0` and `height ≥ 0` the mesh of `Make::Rectangle` has
exactly `width * height` particles: one for each `x` of the `width` integers
`⌊-width/2⌋ ≤ x < ⌊width/2⌋` and each `y` of the `height` integers
`⌊-height/2⌋ ≤ y < ⌊height/2⌋`, column by column, with mass `nodeMass`,
radius `r`, position `startPos + (x * spacing, y * spacing)`, `lastPos = pos`
(zero velocity) and zero `acc`. -/
theorem Make.Rectangle_masses [FloorRing F] (dt : F) (sqrt : F → F) (startPos : Vec2 F)
    (width height : Int) (spacing r nodeMass : F) (hw : 0 ≤ width) (hh : 0 ≤ height) :
    ((Make.Rectangle dt sqrt startPos width height spacing r nodeMass).masses.length : Int)
      = width * height ∧
    (Make.Rectangle dt sqrt startPos width height spacing r nodeMass).masses
      = (intRange ⌊-(width : F) / 2⌋ ⌊(width : F) / 2⌋).flatMap (fun (x : Int) =>
          (intRange ⌊-(height : F) / 2⌋ ⌊(height : F) / 2⌋).map (fun (y : Int) =>
            (⟨nodeMass, r, startPos + ⟨(x : F) * spacing, (y : F) * spacing⟩,
              startPos + ⟨(x : F) * spacing, (y : F) * spacing⟩, ⟨0, 0⟩⟩ : Mass F))) ∧
    ((intRange ⌊-(width : F) / 2⌋ ⌊(width : F) / 2⌋).length : Int) = width ∧
    ((intRange ⌊-(height : F) / 2⌋ ⌊(height : F) / 2⌋).length : Int) = height ∧
    (∀ lo hi : Int, (intRange lo hi).Nodup ∧ ∀ x, x ∈ intRange lo hi ↔ lo ≤ x ∧ x < hi) ∧
    (∀ m ∈ (Make.Rectangle dt sqrt startPos width height spacing r nodeMass).masses,
      m.r = r ∧ m.mass = nodeMass ∧ m.lastPos = m.pos ∧ m.getVelV = ⟨0, 0⟩ ∧
      ∃ x y : Int, (⌊-(width : F) / 2⌋ ≤ x ∧ x < ⌊(width : F) / 2⌋) ∧
        (⌊-(height : F) / 2⌋ ≤ y ∧ y < ⌊(height : F) / 2⌋) ∧
        m.pos = startPos + ⟨(x : F) * spacing, (y : F) * spacing⟩) ∧
    (∀ x y : Int, ⌊-(width : F) / 2⌋ ≤ x → x < ⌊(width : F) / 2⌋ →
      ⌊-(height : F) / 2⌋ ≤ y → y < ⌊(height : F) / 2⌋ →
      ∃ m ∈ (Make.Rectangle dt sqrt startPos width height spacing r nodeMass).masses,
        m.pos = startPos + ⟨(x : F) * spacing, (y : F) * spacing⟩) := by
  have hnew : ∀ p : Vec2 F, Mass.new dt p r ⟨0, 0⟩ nodeMass = ⟨nodeMass, r, p, p, ⟨0, 0⟩⟩ := by
    intro p
    simp only [Mass.new]
    congr 1
    ext <;> simp
  have hlw : ((intRange ⌊-(width : F) / 2⌋ ⌊(width : F) / 2⌋).length : Int) = width := by
    rw [length_intRange, floor_half_sub_floor_neg_half]
    exact Int.toNat_of_nonneg hw
  have hlh : ((intRange ⌊-(height : F) / 2⌋ ⌊(height : F) / 2⌋).length : Int) = height := by
    rw [length_intRange, floor_half_sub_floor_neg_half]
    exact Int.toNat_of_nonneg hh
  have hm : (Make.Rectangle dt sqrt startPos width height spacing r nodeMass).masses
      = (intRange ⌊-(width : F) / 2⌋ ⌊(width : F) / 2⌋).flatMap (fun (x : Int) =>
          (intRange ⌊-(height : F) / 2⌋ ⌊(height : F) / 2⌋).map (fun (y : Int) =>
            (⟨nodeMass, r, startPos + ⟨(x : F) * spacing, (y : F) * spacing⟩,
              startPos + ⟨(x : F) * spacing, (y : F) * spacing⟩, ⟨0, 0⟩⟩ : Mass F))) := by
    simp only [Make.Rectangle, hnew]
  refine ⟨?_, hm, hlw, hlh, fun lo hi => ⟨nodup_intRange lo hi, mem_intRange lo hi⟩, ?_, ?_⟩
  · rw [hm, length_flatMap_map_const, Nat.cast_mul, hlw, hlh]
  · intro m hmem
    rw [hm] at hmem
    simp only [List.mem_flatMap, List.mem_map, mem_intRange] at hmem
    obtain ⟨x, hx, y, hy, rfl⟩ := hmem
    refine ⟨rfl, rfl, rfl, ?_, x, y, hx, hy, rfl⟩
    simp only [Mass.getVelV]
    ext <;> simp
  · intro x y hx1 hx2 hy1 hy2
    rw [hm]
    refine ⟨⟨nodeMass, r, startPos + ⟨(x : F) * spacing, (y : F) * spacing⟩,
      startPos + ⟨(x : F) * spacing, (y : F) * spacing⟩, ⟨0, 0⟩⟩, ?_, rfl⟩
    simp only [List.mem_flatMap, List.mem_map, mem_intRange]
    exact ⟨x, ⟨hx1, hx2⟩, y, ⟨hy1, hy2⟩, rfl⟩

/-- Witness for C20: the call `Make::Rectangle({WIDTH/5*3, HEIGHT/2}, 3, 3,
70, 30)` of `main` (odd width and height) gives 9 particles, on the columns
`x = -2, -1, 0` and the rows `y = -2, -1, 0`. -/
theorem Make.Rectangle_masses_witness :
    ((0 : Int) ≤ 3 ∧ (0 : Int) ≤ 3) ∧
    (Make.Rectangle dt ratSqrt ⟨1152, 505⟩ 3 3 70 30 1).masses.length = 9 ∧
    (Make.Rectangle dt ratSqrt ⟨1152, 505⟩ 3 3 70 30 1).masses.map (fun m => m.pos)
      = [⟨1012, 365⟩, ⟨1012, 435⟩, ⟨1012, 505⟩, ⟨1082, 365⟩, ⟨1082, 435⟩, ⟨1082, 505⟩,
         ⟨1152, 365⟩, ⟨1152, 435⟩, ⟨1152, 505⟩] ∧
    ∀ m ∈ (Make.Rectangle dt ratSqrt ⟨1152, 505⟩ 3 3 70 30 1).masses,
      m.r = 30 ∧ m.mass = 1 ∧ m.lastPos = m.pos := by
  obtain ⟨h1, h2, -, -, -, h3, -⟩ := Make.Rectangle_masses dt ratSqrt (⟨1152, 505⟩ : Vec2 ℚ)
    3 3 70 30 1 (by decide) (by decide)
  have hf1 : ⌊-((3 : Int) : ℚ) / 2⌋ = -2 := by
    rw [Int.floor_eq_iff]; norm_num
  have hf2 : ⌊((3 : Int) : ℚ) / 2⌋ = 1 := by
    rw [Int.floor_eq_iff]; norm_num
  refine ⟨⟨by decide, by decide⟩, ?_, ?_, fun m hm => ?_⟩
  · exact_mod_cast h1
  · rw [h2, hf1, hf2, show intRange (-2) 1 = [-2, -1, 0] from by decide]
    simp only [List.flatMap_cons, List.flatMap_nil, List.map_cons, List.map_nil,
      List.cons_append, List.nil_append, List.append_nil]
    norm_num
    refine ⟨?_, ?_, ?_, ?_, ?_, ?_, ?_, ?_, ?_⟩ <;> ext <;> norm_num
  · obtain ⟨a, b, c, -⟩ := h3 m hm
    exact ⟨a, b, c⟩

end Theorems

end MassSpring
